import Mathlib

/-!
# MinimaJS core: a shallow embedding in Lean 4

This file embeds the virtual-DOM reconciliation engine and the hook-state
runtime of the MinimaJS repository and proves/refutes the frozen claims
about it.

Two implementations live in the repository and are both modelled here:

* `MJS` — the engine of `src/minima.js` (tagged VNodes with `_type`, `_key`,
  `_dom` fields, keyed child reconciliation `diffChildrenWithKeys`,
  `updateElement`).
* `Core` — the engine of `lib/minima-core.js` (`createElement`, `useState`,
  `useEffect`, `scheduleRender`, `diff`, `updateProps`, `renderFunction`,
  `renderComponent`).

DOM mutation is modelled by an explicit operation log plus a store mapping a
parent node id to the ordered list of its child node ids.  Machine-level
details that the claims do not touch (actual browser objects, string
coercion of attribute values) are reduced to ids and plain values.
-/

namespace MinimaJS

/-- A property value: JS props hold strings (and other primitives compared by
value) or function objects (event handlers, compared by identity, which we
model with an id). -/
inductive PropVal : Type where
  | str (s : String)
  | fn (id : Nat)
deriving DecidableEq, Repr

/-- JS truthiness of a prop value: the empty string is falsy, functions are
truthy. -/
def PropVal.truthy : PropVal → Bool
  | .str s => s ≠ ""
  | .fn _ => true

/-- First binding of a key in a JS-object-like association list
(`props[key]`, JS object keys are unique; `find?` returns the unique binding
when the key list has no duplicates). -/
def propGet (ps : List (String × PropVal)) (k : String) : Option PropVal :=
  (ps.find? (fun e => e.1 == k)).map (fun e => e.2)

/-- `key in props`. -/
def propHas (ps : List (String × PropVal)) (k : String) : Bool :=
  ps.any (fun e => e.1 == k)

/-! ## The DOM store

`Dom` maps a parent node id to the ordered list of its child node ids.
`insertBefore`/`appendChild` move a node that is already in the document, so
they first erase the node everywhere. -/

abbrev Dom := List (Nat × List Nat)

def domGet (d : Dom) (p : Nat) : List Nat :=
  match d.find? (fun e => e.1 == p) with
  | some e => e.2
  | none => []

def domSetChildren (d : Dom) (p : Nat) (cs : List Nat) : Dom :=
  if d.any (fun e => e.1 == p) then
    d.map (fun e => if e.1 == p then (p, cs) else e)
  else
    d ++ [(p, cs)]

/-- Detach a node from every parent (a DOM node has at most one parent; the
global erase models the implicit detach done by `insertBefore`,
`appendChild` and `replaceChild` when the node is already in the document). -/
def domDetach (d : Dom) (c : Nat) : Dom :=
  d.map (fun e => (e.1, e.2.erase c))

def domAppendChild (d : Dom) (p : Nat) (c : Nat) : Dom :=
  let d := domDetach d c
  domSetChildren d p (domGet d p ++ [c])

/-- Insert `c` immediately before `ref` in a child list (append when `ref`
is `none`, matching `insertBefore(node, null)`; a missing reference node is
unreachable in the modelled scenarios — the browser would throw). -/
def listInsertBefore (cs : List Nat) (c : Nat) (ref : Option Nat) : List Nat :=
  match ref with
  | none => cs ++ [c]
  | some r =>
    match cs with
    | [] => [c]
    | x :: xs => if x = r then c :: x :: xs else x :: listInsertBefore xs c (some r)

def domInsertBefore (d : Dom) (p : Nat) (c : Nat) (ref : Option Nat) : Dom :=
  let d := domDetach d c
  domSetChildren d p (listInsertBefore (domGet d p) c ref)

def domRemoveChild (d : Dom) (p : Nat) (c : Nat) : Dom :=
  domSetChildren d p ((domGet d p).erase c)

def domReplaceChild (d : Dom) (p : Nat) (old new : Nat) : Dom :=
  let d := domDetach d new
  domSetChildren d p ((domGet d p).map (fun x => if x = old then new else x))

/-!
## `MJS`: the virtual DOM of `src/minima.js`

VNodes are objects `{tag, props, children, _key, _dom, _type}` with
`_type ∈ element | text | fragment`; children arrays may also hold raw JS
strings, modelled by the extra `raw` tag (reconciliation converts them to
text VNodes via `normalizeChild`, exactly as `diffChildren` does).
-/

namespace MJS

inductive MTy : Type where
  | element
  | text
  | fragment
  | raw
deriving DecidableEq, Repr

/-- A VNode of `src/minima.js`. Fields in source order:
`tag`, `props`, `children`, `_key`, `_dom`, `_type` (the `_type` first here),
plus `text` which only text VNodes carry (`""` elsewhere). A `raw` node
stands for a bare JS string appearing in a children array (its string in
`text`). -/
inductive MVNode : Type where
  | mk (ty : MTy) (tag : Option String) (props : List (String × PropVal))
      (children : List MVNode) (key : Option String) (dom : Option Nat)
      (text : String) : MVNode

def MVNode.ty : MVNode → MTy
  | .mk t _ _ _ _ _ _ => t

def MVNode.tag : MVNode → Option String
  | .mk _ tg _ _ _ _ _ => tg

def MVNode.props : MVNode → List (String × PropVal)
  | .mk _ _ ps _ _ _ _ => ps

def MVNode.children : MVNode → List MVNode
  | .mk _ _ _ cs _ _ _ => cs

def MVNode.key : MVNode → Option String
  | .mk _ _ _ _ k _ _ => k

def MVNode.dom : MVNode → Option Nat
  | .mk _ _ _ _ _ d _ => d

def MVNode.text : MVNode → String
  | .mk _ _ _ _ _ _ s => s

/-- `newVNode._dom = ...` -/
def MVNode.setDom : MVNode → Option Nat → MVNode
  | .mk t tg ps cs k _ s, d => .mk t tg ps cs k d s

/-- `createTextVNode` (src/minima.js 127-137): a text VNode with `_key` and
`_dom` null. -/
def createTextVNode (s : String) : MVNode :=
  .mk .text none [] [] none none s

/-- A bare JS string sitting in a children array. -/
def rawChild (s : String) : MVNode :=
  .mk .raw none [] [] none none s

/-- `typeof child === 'string' ? createTextVNode(child) : child`
(src/minima.js 326). -/
def normalizeChild (c : MVNode) : MVNode :=
  if c.ty = .raw then createTextVNode c.text else c

/-! `msize`: number of VNodes in a tree (termination/fuel measure). -/

mutual

def msize : MVNode → Nat
  | .mk _ _ _ cs _ _ _ => msizeList cs + 1

def msizeList : List MVNode → Nat
  | [] => 0
  | c :: cs => msize c + msizeList cs

end

/-- The DOM mutations (and console warnings) the engine can perform. -/
inductive MOp : Type where
  | createNode (id : Nat)
  | appendNode (parent id : Nat)
  | removeNode (parent id : Nat)
  | replaceNode (parent oldId newId : Nat)
  | insertNodeBefore (parent id : Nat) (ref : Option Nat)
  | setAttr (id : Nat) (name : String) (value : PropVal)
  | removeAttr (id : Nat) (name : String)
  | addListener (id : Nat) (event : String)
  | removeListener (id : Nat) (event : String)
  | setText (id : Nat) (s : String)
  | warn (msg : String)
deriving DecidableEq, Repr

/-- Mutable context threaded through reconciliation: the log of performed
DOM operations, a fresh-id supply for created nodes, and the child lists of
the document. -/
structure MSt : Type where
  ops : List MOp
  fresh : Nat
  dom : Dom
deriving Repr

/-- `'onClick'.slice(2).toLowerCase()`. -/
def eventOf (k : String) : String :=
  (k.drop 2).toLower

/-- `updateElement` (src/minima.js 214-259), as the list of DOM operations
it performs on element `el`. JS object props cannot carry duplicate keys,
so `kv.2` below coincides with the object lookup `oldProps[key]`. -/
def updateElement (el : Nat) (oldProps newProps : List (String × PropVal)) : List MOp :=
  let removals := oldProps.foldl (fun acc kv =>
    if propHas newProps kv.1 then acc
    else if kv.1.startsWith "on" then
      match kv.2 with
      | .fn _ => acc ++ [.removeListener el (eventOf kv.1)]
      | _ => acc
    else if kv.1 == "className" then acc ++ [.removeAttr el "class"]
    else if kv.1 == "key" then acc
    else acc ++ [.removeAttr el kv.1]) []
  let sets := newProps.foldl (fun acc kv =>
    if propGet oldProps kv.1 == some kv.2 then acc
    else if kv.1.startsWith "on" then
      let pre : List MOp :=
        match propGet oldProps kv.1 with
        | some (.fn _) => [.removeListener el (eventOf kv.1)]
        | _ => []
      match kv.2 with
      | .fn _ => acc ++ pre ++ [.addListener el (eventOf kv.1)]
      | .str s =>
        acc ++ pre ++
          (if s ≠ "" then
            [.warn ("MinimaJS: Event handler for '" ++ kv.1 ++ "' is not a function")]
          else [])
    else if kv.1 == "className" then acc ++ [.setAttr el "class" kv.2]
    else if kv.1 == "key" then acc
    else acc ++ [.setAttr el kv.1 kv.2]) []
  removals ++ sets

/-! ### The key maps of `diffChildrenWithKeys` (src/minima.js 362-431)

`Map.set` overwrites the previous entry for a key, so a duplicated sibling
key leaves only its **last** occurrence in the map. -/

abbrev KeyMap := List (String × MVNode × Nat)

def mapSet (m : KeyMap) (k : String) (v : MVNode × Nat) : KeyMap :=
  if m.any (fun e => e.1 == k) then m.map (fun e => if e.1 == k then (k, v) else e)
  else m ++ [(k, v)]

def mapGet (m : KeyMap) (k : String) : Option (MVNode × Nat) :=
  (m.find? (fun e => e.1 == k)).map (fun e => e.2)

def buildKeyMapGo (i : Nat) (cs : List MVNode) (m : KeyMap) : KeyMap :=
  match cs with
  | [] => m
  | c :: rest =>
    buildKeyMapGo (i + 1) rest
      (match c.key with
       | some k => mapSet m k (c, i)
       | none => m)

/-- `children.forEach((child, index) => { if (child && child._key !== null)
map.set(child._key, -x7b child, index -x7d) })`. -/
def buildKeyMap (cs : List MVNode) : KeyMap :=
  buildKeyMapGo 0 cs []

/-- Entries of the `operations` queue of `diffChildrenWithKeys`. -/
inductive POp : Type where
  | insert (c : MVNode) (i : Nat)
  | update (c : MVNode) (i : Nat)

/-- Second pass of `diffChildrenWithKeys` (412-417): remove every old child
whose index was not matched and whose `_dom` is set (the source assumes a
non-null parent here; reconciliation always passes an element). -/
def secondPassGo (parent : Option Nat) (i : Nat) (olds : List MVNode) (matched : List Nat) (st : MSt) : MSt :=
  match olds with
  | [] => st
  | c :: rest =>
    let st :=
      if matched.contains i then st
      else
        match parent, c.dom with
        | some p, some d =>
          { st with ops := st.ops ++ [.removeNode p d], dom := domRemoveChild st.dom p d }
        | _, _ => st
    secondPassGo parent (i + 1) rest matched st

/-! ### Mount and diff (src/minima.js 160-206, 269-316, 324-354, 362-431)

All functions carry a fuel argument (an artifact of the embedding; every
theorem below supplies enough).  Each worker consumes one unit per level,
loop helpers recurse structurally over their list. -/

mutual

/-- `createElement` (src/minima.js 160-206): build a real DOM node for a
VNode, returning its id and the VNode with `_dom` set. A raw string
reaching it would throw in JS (`Invalid VNode`); children are normalized
before the recursive call, as in the source. -/
def createElementM (fuel : Nat) (v : MVNode) (st : MSt) : Option Nat × MVNode × MSt :=
  match fuel with
  | 0 => (none, v, st)
  | fuel + 1 =>
    match v with
    | .mk mty mtag mprops mchildren mkey _ mtext =>
      match mty with
      | .text =>
        let id := st.fresh
        let st := { st with fresh := id + 1, ops := st.ops ++ [.createNode id] }
        (some id, .mk mty mtag mprops mchildren mkey (some id) mtext, st)
      | .element =>
        let id := st.fresh
        let st := { st with fresh := id + 1,
                            ops := st.ops ++ [.createNode id] ++ updateElement id [] mprops,
                            dom := domSetChildren st.dom id [] }
        let st := createChildrenGo fuel id mchildren st
        (some id, .mk mty mtag mprops mchildren mkey (some id) mtext, st)
      | .fragment =>
        let id := st.fresh
        let st := { st with fresh := id + 1, ops := st.ops ++ [.createNode id],
                            dom := domSetChildren st.dom id [] }
        let st := createChildrenGo fuel id mchildren st
        (some id, .mk mty mtag mprops mchildren mkey (some id) mtext, st)
      | .raw => (none, v, st)

/-- The children loop of `createElement` (normalize, create, append). -/
def createChildrenGo (fuel : Nat) (parentId : Nat) (cs : List MVNode) (st : MSt) : MSt :=
  match fuel with
  | 0 => st
  | fuel + 1 =>
    match cs with
    | [] => st
    | c :: rest =>
      let cn := normalizeChild c
      let (idOpt, _, st) := createElementM fuel cn st
      let st :=
        match idOpt with
        | some cid =>
          { st with ops := st.ops ++ [.appendNode parentId cid],
                    dom := domAppendChild st.dom parentId cid }
        | none => st
      createChildrenGo (fuel + 1) parentId rest st

/-- `diff` (src/minima.js 269-316). The `index` parameter of the source is
unused by its body and omitted. Returns the VNode now current at the
position (with `_dom` carried over for same-type nodes). -/
def mdiff (fuel : Nat) (o n : Option MVNode) (parent : Option Nat) (st : MSt) : Option MVNode × MSt :=
  match fuel with
  | 0 => (n, st)
  | fuel + 1 =>
    match o, n with
    | none, none => (none, st)
    | none, some nv =>
      -- Case 1: no old node - create new
      let (idOpt, nv, st) := createElementM fuel nv st
      let st :=
        match parent, idOpt with
        | some p, some id =>
          { st with ops := st.ops ++ [.appendNode p id], dom := domAppendChild st.dom p id }
        | _, _ => st
      (some nv, st)
    | some ov, none =>
      -- Case 2: no new node - remove old
      let st :=
        match parent, ov.dom with
        | some p, some d =>
          { st with ops := st.ops ++ [.removeNode p d], dom := domRemoveChild st.dom p d }
        | _, _ => st
      (none, st)
    | some ov, some nv =>
      if ov.ty ≠ nv.ty ∨ ov.tag ≠ nv.tag then
        -- Case 3: different types - replace completely
        let (idOpt, nv, st) := createElementM fuel nv st
        let st :=
          match parent, ov.dom, idOpt with
          | some p, some d, some id =>
            { st with ops := st.ops ++ [.replaceNode p d id], dom := domReplaceChild st.dom p d id }
          | _, _, _ => st
        (some nv, st)
      else
        -- Case 4: same type - update in place
        let nv := nv.setDom ov.dom
        match nv.ty with
        | .text =>
          let st :=
            if ov.text ≠ nv.text then
              match nv.dom with
              | some d => { st with ops := st.ops ++ [.setText d nv.text] }
              | none => st
            else st
          (some nv, st)
        | .element =>
          let st :=
            match nv.dom with
            | some d => { st with ops := st.ops ++ updateElement d ov.props nv.props }
            | none => st
          let (_, st) := diffChildrenM fuel ov.children nv.children nv.dom st
          (some nv, st)
        | .fragment =>
          let (_, st) := diffChildrenM fuel ov.children nv.children parent st
          (some nv, st)
        | .raw => (some nv, st)

/-- `diffChildren` (src/minima.js 324-340): normalize both lists, then key
based reconciliation when some new child has a key, index based otherwise. -/
def diffChildrenM (fuel : Nat) (oldChildren newChildren : List MVNode) (parent : Option Nat) (st : MSt) :
    List MVNode × MSt :=
  match fuel with
  | 0 => (newChildren, st)
  | fuel + 1 =>
    let normalizedOld := oldChildren.map normalizeChild
    let normalizedNew := newChildren.map normalizeChild
    let hasKeys := normalizedNew.any (fun c => c.key.isSome)
    if hasKeys then diffChildrenWithKeysM fuel normalizedOld normalizedNew parent st
    else diffChildrenByIndexM fuel normalizedOld normalizedNew parent st

/-- `diffChildrenByIndex` (src/minima.js 348-354): positional diff up to the
longer length. -/
def diffChildrenByIndexM (fuel : Nat) (olds news : List MVNode) (parent : Option Nat) (st : MSt) :
    List MVNode × MSt :=
  match fuel with
  | 0 => (news, st)
  | fuel + 1 =>
    byIndexGo fuel ((List.range (max olds.length news.length)).map (fun i => (olds[i]?, news[i]?)))
      parent st []

def byIndexGo (fuel : Nat) (pairs : List (Option MVNode × Option MVNode)) (parent : Option Nat)
    (st : MSt) (acc : List MVNode) : List MVNode × MSt :=
  match fuel with
  | 0 => (acc, st)
  | fuel + 1 =>
    match pairs with
    | [] => (acc, st)
    | (o, n) :: rest =>
      let (r, st) := mdiff fuel o n parent st
      byIndexGo (fuel + 1) rest parent st (acc ++ r.toList)

/-- `diffChildrenWithKeys` (src/minima.js 362-431). `newKeyMap` is built by
the source but never read. -/
def diffChildrenWithKeysM (fuel : Nat) (oldChildren newChildren : List MVNode) (parent : Option Nat)
    (st : MSt) : List MVNode × MSt :=
  match fuel with
  | 0 => (newChildren, st)
  | fuel + 1 =>
    let oldKeyMap := buildKeyMap oldChildren
    let _newKeyMap := buildKeyMap newChildren
    let (st, matched, operations, out) := firstPassGo fuel oldKeyMap 0 newChildren parent st [] [] []
    let st := secondPassGo parent 0 oldChildren matched st
    let st := thirdPassGo fuel operations oldChildren parent st
    (out, st)

/-- First pass (385-410): match keyed children against the old key map,
diff the pair, and move the DOM node when its position changed; queue
non-keyed children and unmatched (new) keyed children. The move test reads
`newChild._dom` after `diff` assigned it, and `parent.children[newIndex]`
from the live document. -/
def firstPassGo (fuel : Nat) (oldKeyMap : KeyMap) (newIndex : Nat) (cs : List MVNode)
    (parent : Option Nat) (st : MSt) (matched : List Nat) (queue : List POp) (out : List MVNode) :
    MSt × List Nat × List POp × List MVNode :=
  match fuel with
  | 0 => (st, matched, queue, out)
  | fuel + 1 =>
    match cs with
    | [] => (st, matched, queue, out)
    | c :: rest =>
      match c.key with
      | none =>
        firstPassGo (fuel + 1) oldKeyMap (newIndex + 1) rest parent st matched
          (queue ++ [.update c newIndex]) (out ++ [c])
      | some k =>
        match mapGet oldKeyMap k with
        | some (oldChild, oldIndex) =>
          let matched := matched ++ [oldIndex]
          let (res, st) := mdiff fuel (some oldChild) (some c) parent st
          let resDom := match res with | some r => r.dom | none => none
          let st :=
            match parent, resDom with
            | some p, some d =>
              let ref := (domGet st.dom p)[newIndex]?
              if oldIndex ≠ newIndex ∧ ref ≠ some d then
                { st with ops := st.ops ++ [.insertNodeBefore p d ref],
                          dom := domInsertBefore st.dom p d ref }
              else st
            | _, _ => st
          firstPassGo (fuel + 1) oldKeyMap (newIndex + 1) rest parent st matched queue
            (out ++ res.toList)
        | none =>
          firstPassGo (fuel + 1) oldKeyMap (newIndex + 1) rest parent st matched
            (queue ++ [.insert c newIndex]) (out ++ [c])

/-- Third pass (419-430): insert new keyed elements, diff non-keyed
children positionally (`oldChildren[newIndex]`). -/
def thirdPassGo (fuel : Nat) (queue : List POp) (oldChildren : List MVNode) (parent : Option Nat)
    (st : MSt) : MSt :=
  match fuel with
  | 0 => st
  | fuel + 1 =>
    match queue with
    | [] => st
    | .insert c i :: rest =>
      let (idOpt, _, st) := createElementM fuel c st
      let st :=
        match parent, idOpt with
        | some p, some id =>
          let ref := (domGet st.dom p)[i]?
          { st with ops := st.ops ++ [.insertNodeBefore p id ref],
                    dom := domInsertBefore st.dom p id ref }
        | _, _ => st
      thirdPassGo (fuel + 1) rest oldChildren parent st
    | .update c i :: rest =>
      let (_, st) := mdiff fuel oldChildren[i]? (some c) parent st
      thirdPassGo (fuel + 1) rest oldChildren parent st

end

/-! ### Well-formed trees

`wellKeyed` captures the shape of trees a JS program can actually hand to
the reconciler without corrupting it: object props have unique keys (JS
object literals cannot repeat a key), sibling keys are pairwise distinct,
and in a children array that uses keys, any unkeyed sibling is unmounted
(`_dom` null — e.g. a raw string, which normalization always turns into a
fresh text VNode with `_dom = null`). The claims C6 and C8 are precisely
about what happens when the last two conditions fail. -/

mutual

def wellKeyed : MVNode → Bool
  | .mk _ _ ps cs _ _ _ =>
    let ncs := cs.map normalizeChild
    decide ((ps.map Prod.fst).Nodup) &&
    decide ((ncs.filterMap MVNode.key).Nodup) &&
    (!(ncs.any (fun c => c.key.isSome)) || ncs.all (fun c => c.key.isSome || c.dom == none)) &&
    wellKeyedList cs

def wellKeyedList : List MVNode → Bool
  | [] => true
  | c :: rest => wellKeyed c && wellKeyedList rest

end

/-- Last occurrence (node and index) of key `k` in a children list — the
entry `Map.set` overwriting leaves in the key map. -/
def findLastKey : List MVNode → String → Option (MVNode × Nat)
  | [], _ => none
  | c :: rest, k =>
    match findLastKey rest k with
    | some (d, j) => some (d, j + 1)
    | none => if c.key = some k then some (c, 0) else none

/-! ### Basic lemmas -/

lemma foldl_congr_id {α β : Type} (f : β → α → β) (l : List α) (init : β)
    (h : ∀ acc x, x ∈ l → f acc x = acc) : l.foldl f init = init := by
  induction l generalizing init with
  | nil => rfl
  | cons x rest ih =>
    rw [List.foldl_cons, h init x (List.mem_cons_self x rest)]
    exact ih init (fun acc y hy => h acc y (List.mem_cons_of_mem x hy))

lemma propGet_self {ps : List (String × PropVal)} (hnd : (ps.map Prod.fst).Nodup) :
    ∀ kv ∈ ps, propGet ps kv.1 = some kv.2 := by
  induction ps with
  | nil => intro kv h; cases h
  | cons e rest ih =>
    intro kv hkv
    simp only [List.map_cons, List.nodup_cons] at hnd
    rcases List.mem_cons.mp hkv with h | h
    · subst h
      simp [propGet, List.find?]
    · have hne : e.1 ≠ kv.1 := by
        intro he
        exact hnd.1 (he ▸ List.mem_map_of_mem Prod.fst h)
      simp only [propGet, List.find?]
      have : (e.1 == kv.1) = false := by
        simp [hne]
      rw [this]
      exact ih hnd.2 kv h

lemma updateElement_self (el : Nat) (ps : List (String × PropVal))
    (hnd : (ps.map Prod.fst).Nodup) : updateElement el ps ps = [] := by
  unfold updateElement
  have h1 : ∀ (acc : List MOp) (kv : String × PropVal), kv ∈ ps →
      (if propHas ps kv.1 then acc
       else if kv.1.startsWith "on" then
        match kv.2 with
        | .fn _ => acc ++ [.removeListener el (eventOf kv.1)]
        | _ => acc
       else if kv.1 == "className" then acc ++ [.removeAttr el "class"]
       else if kv.1 == "key" then acc
       else acc ++ [.removeAttr el kv.1]) = acc := by
    intro acc kv hkv
    have : propHas ps kv.1 = true := by
      unfold propHas
      exact List.any_eq_true.mpr ⟨kv, hkv, by simp⟩
    simp [this]
  have h2 : ∀ (acc : List MOp) (kv : String × PropVal), kv ∈ ps →
      (if propGet ps kv.1 == some kv.2 then acc
       else if kv.1.startsWith "on" then
        let pre : List MOp :=
          match propGet ps kv.1 with
          | some (.fn _) => [.removeListener el (eventOf kv.1)]
          | _ => []
        match kv.2 with
        | .fn _ => acc ++ pre ++ [.addListener el (eventOf kv.1)]
        | .str s =>
          acc ++ pre ++
            (if s ≠ "" then
              [.warn ("MinimaJS: Event handler for '" ++ kv.1 ++ "' is not a function")]
            else [])
       else if kv.1 == "className" then acc ++ [.setAttr el "class" kv.2]
       else if kv.1 == "key" then acc
       else acc ++ [.setAttr el kv.1 kv.2]) = acc := by
    intro acc kv hkv
    have : (propGet ps kv.1 == some kv.2) = true := by
      rw [propGet_self hnd kv hkv]
      simp
    simp [this]
  rw [foldl_congr_id _ ps _ h1, foldl_congr_id _ ps _ h2]
  rfl

lemma msize_pos (t : MVNode) : 1 ≤ msize t := by
  cases t with
  | mk ty tg ps cs k d s => unfold msize; omega

lemma msizeList_le {c : MVNode} {cs : List MVNode} (h : c ∈ cs) : msize c ≤ msizeList cs := by
  induction cs with
  | nil => cases h
  | cons x rest ih =>
    rcases List.mem_cons.mp h with h | h
    · subst h; unfold msizeList; omega
    · have := ih h; unfold msizeList; omega

lemma msize_normalizeChild (c : MVNode) : msize (normalizeChild c) ≤ msize c := by
  unfold normalizeChild
  by_cases h : c.ty = .raw
  · simp only [h, if_pos]
    have h1 : msize (createTextVNode c.text) = 1 := rfl
    rw [h1]
    exact msize_pos c
  · simp [h]

lemma setDom_self (t : MVNode) : t.setDom t.dom = t := by
  cases t; rfl

lemma setDom_dom (t : MVNode) (d : Option Nat) : (t.setDom d).dom = d := by
  cases t; rfl

lemma wellKeyed_normalizeChild {c : MVNode} (h : wellKeyed c = true) :
    wellKeyed (normalizeChild c) = true := by
  unfold normalizeChild
  by_cases hr : c.ty = .raw
  · simp only [hr, if_pos]
    rfl
  · simp [hr, h]

lemma wellKeyedList_mem {c : MVNode} {cs : List MVNode} (hc : c ∈ cs)
    (h : wellKeyedList cs = true) : wellKeyed c = true := by
  induction cs with
  | nil => cases hc
  | cons x rest ih =>
    unfold wellKeyedList at h
    rw [Bool.and_eq_true] at h
    rcases List.mem_cons.mp hc with hh | hh
    · exact hh ▸ h.1
    · exact ih hh h.2

/-! ### Key-map lemmas -/

lemma mapSet_cons (e : String × MVNode × Nat) (m : KeyMap) (k : String) (v : MVNode × Nat) :
    mapSet (e :: m) k v =
      if e.1 = k then (k, v) :: m.map (fun x => if x.1 == k then (k, v) else x)
      else e :: mapSet m k v := by
  unfold mapSet
  by_cases he : e.1 = k
  · simp [he, List.any_cons]
  · have hbe : (e.1 == k) = false := by simp [he]
    simp only [List.any_cons, hbe, Bool.false_or, List.map_cons, if_neg he]
    by_cases hm : m.any (fun x => x.1 == k)
    · simp [hm, hbe]
    · simp [hm, List.cons_append]

lemma mapGet_mapSet_self (m : KeyMap) (k : String) (v : MVNode × Nat) :
    mapGet (mapSet m k v) k = some v := by
  induction m with
  | nil => simp [mapSet, mapGet, List.find?]
  | cons e rest ih =>
    rw [mapSet_cons]
    by_cases he : e.1 = k
    · simp [he, mapGet, List.find?]
    · have hbe : (e.1 == k) = false := by simp [he]
      simp only [if_neg he, mapGet, List.find?, hbe]
      exact ih

lemma find_mapSetMap (xs : KeyMap) (k q : String) (v : MVNode × Nat) (h : k ≠ q) :
    (xs.map (fun x => if x.1 == k then (k, v) else x)).find? (fun e => e.1 == q)
      = xs.find? (fun e => e.1 == q) := by
  induction xs with
  | nil => rfl
  | cons x rest ih =>
    simp only [List.map_cons, List.find?]
    by_cases hx : x.1 = k
    · have h1 : (x.1 == k) = true := by simp [hx]
      have h2 : (k == q) = false := by simp [h]
      have h3 : (x.1 == q) = false := by rw [hx]; exact h2
      simp only [h1, if_pos, h2, h3, List.find?]
      exact ih
    · have h1 : (x.1 == k) = false := by simp [hx]
      simp only [h1, Bool.false_eq_true, if_neg, not_false_iff, List.find?]
      cases hxq : (x.1 == q) with
      | true => rfl
      | false => exact ih

lemma mapGet_mapSet_ne (m : KeyMap) (k q : String) (v : MVNode × Nat) (h : k ≠ q) :
    mapGet (mapSet m k v) q = mapGet m q := by
  unfold mapGet mapSet
  by_cases hm : m.any (fun e => e.1 == k)
  · simp only [hm, if_pos]
    rw [find_mapSetMap m k q v h]
  · simp only [hm, Bool.false_eq_true, if_neg, not_false_iff]
    rw [List.find?_append]
    have : List.find? (fun e => e.1 == q) [(k, v)] = none := by
      have : (k == q) = false := by simp [h]
      simp [List.find?, this]
    rw [this]
    cases List.find? (fun e => e.1 == q) m with
    | none => rfl
    | some e => rfl

lemma buildKeyMapGo_get (cs : List MVNode) : ∀ (i : Nat) (m : KeyMap) (k : String),
    mapGet (buildKeyMapGo i cs m) k =
      match findLastKey cs k with
      | some (d, j) => some (d, i + j)
      | none => mapGet m k := by
  induction cs with
  | nil => intro i m k; rfl
  | cons c rest ih =>
    intro i m k
    unfold buildKeyMapGo findLastKey
    rw [ih]
    cases hf : findLastKey rest k with
    | some dj =>
      cases dj with
      | mk d j =>
        simp only []
        have : i + 1 + j = i + (j + 1) := by omega
        rw [this]
    | none =>
      simp only []
      cases hck : c.key with
      | none => simp [hck]
      | some k2 =>
        simp only []
        by_cases hkk : k2 = k
        · subst hkk
          rw [if_pos rfl, mapGet_mapSet_self]
          simp
        · rw [if_neg (by simp [hkk] : ¬(some k2 = some k)),
            mapGet_mapSet_ne m k2 k (c, i) hkk]

lemma buildKeyMap_get (cs : List MVNode) (k : String) :
    mapGet (buildKeyMap cs) k =
      match findLastKey cs k with
      | some (d, j) => some (d, j)
      | none => none := by
  unfold buildKeyMap
  rw [buildKeyMapGo_get]
  cases hf : findLastKey cs k with
  | some dj => cases dj with | mk d j => simp
  | none => rfl

lemma findLastKey_sound (cs : List MVNode) (k : String) :
    ∀ d j, findLastKey cs k = some (d, j) → cs[j]? = some d ∧ d.key = some k := by
  induction cs with
  | nil => intro d j h; cases h
  | cons c rest ih =>
    intro d j h
    unfold findLastKey at h
    cases hf : findLastKey rest k with
    | some dj =>
      obtain ⟨d2, j2⟩ := dj
      rw [hf] at h
      simp only [Option.some.injEq, Prod.mk.injEq] at h
      obtain ⟨hd, hj⟩ := h
      subst hj
      rw [← hd]
      rw [List.getElem?_cons_succ]
      exact ih d2 j2 hf
    | none =>
      rw [hf] at h
      simp only [] at h
      by_cases hck : c.key = some k
      · rw [if_pos hck] at h
        simp only [Option.some.injEq, Prod.mk.injEq] at h
        obtain ⟨hd, hj⟩ := h
        subst hd
        subst hj
        simp [hck]
      · rw [if_neg hck] at h
        cases h

/-- In a list with pairwise-distinct keys, the (last-wins) key map sends
each key to its unique position. -/
lemma findLastKey_of_nodup (cs : List MVNode) (hnd : (cs.filterMap MVNode.key).Nodup) :
    ∀ i c k, cs[i]? = some c → c.key = some k → findLastKey cs k = some (c, i) := by
  induction cs with
  | nil => intro i c k h; cases h.symm.trans (List.getElem?_nil)
  | cons x rest ih =>
    intro i c k hget hkey
    have hnd2 : (rest.filterMap MVNode.key).Nodup := by
      cases hx : x.key with
      | none => rw [List.filterMap_cons_none hx] at hnd; exact hnd
      | some kx =>
        rw [List.filterMap_cons_some hx] at hnd
        exact (List.nodup_cons.mp hnd).2
    cases i with
    | zero =>
      rw [List.getElem?_cons_zero] at hget
      cases hget
      unfold findLastKey
      cases hf : findLastKey rest k with
      | some dj =>
        cases dj with
        | mk d j =>
          have hsound := findLastKey_sound rest k d j hf
          have hmem : k ∈ rest.filterMap MVNode.key := by
            rcases List.getElem?_eq_some_iff.mp hsound.1 with ⟨hj, hdj⟩
            exact List.mem_filterMap.mpr ⟨d, by rw [← hdj]; exact List.getElem_mem _, hsound.2⟩
          rw [List.filterMap_cons_some hkey] at hnd
          exact absurd hmem (List.nodup_cons.mp hnd).1
      | none => simp [hkey]
    | succ j =>
      rw [List.getElem?_cons_succ] at hget
      have := ih hnd2 j c k hget hkey
      unfold findLastKey
      rw [this]

/-! ### Self-diff (idempotence) machinery

`keyedIdxs i cs` / `updateOps i cs` describe what the first pass of
`diffChildrenWithKeys` accumulates when every keyed child matches its own
position: the matched old indices and the queued non-keyed updates. -/

def keyedIdxs : Nat → List MVNode → List Nat
  | _, [] => []
  | i, c :: rest => (if c.key.isSome then [i] else []) ++ keyedIdxs (i + 1) rest

def updateOps : Nat → List MVNode → List POp
  | _, [] => []
  | i, c :: rest => (if c.key.isSome then [] else [.update c i]) ++ updateOps (i + 1) rest

lemma keyedIdxs_mem (list : List MVNode) : ∀ (i j : Nat) (c : MVNode),
    list[j]? = some c → c.key.isSome = true → (i + j) ∈ keyedIdxs i list := by
  induction list with
  | nil => intro i j c h; rw [List.getElem?_nil] at h; cases h
  | cons x rest ih =>
    intro i j c h hk
    cases j with
    | zero =>
      rw [List.getElem?_cons_zero] at h
      cases h
      unfold keyedIdxs
      rw [hk]
      simp
    | succ j2 =>
      rw [List.getElem?_cons_succ] at h
      have := ih (i + 1) j2 c h hk
      unfold keyedIdxs
      rw [List.mem_append]
      right
      have harith : i + 1 + j2 = i + (j2 + 1) := by omega
      rw [← harith]
      exact this

lemma updateOps_mem (list : List MVNode) : ∀ (i : Nat) (x : POp), x ∈ updateOps i list →
    ∃ j c, x = POp.update c (i + j) ∧ list[j]? = some c ∧ c.key.isSome = false := by
  induction list with
  | nil => intro i x h; cases h
  | cons e rest ih =>
    intro i x h
    unfold updateOps at h
    rw [List.mem_append] at h
    rcases h with h | h
    · cases hk : e.key.isSome with
      | true => rw [hk] at h; cases h
      | false =>
        rw [hk] at h
        rcases List.mem_singleton.mp h with rfl
        exact ⟨0, e, by simp, by simp, hk⟩
    · obtain ⟨j, c, hx, hg, hk⟩ := ih (i + 1) x h
      refine ⟨j + 1, c, ?_, by simpa using hg, hk⟩
      rw [hx]
      congr 1
      omega

lemma selfPairs (cs : List MVNode) :
    (List.range (max cs.length cs.length)).map (fun i => (cs[i]?, cs[i]?))
      = cs.map (fun c => (some c, some c)) := by
  rw [Nat.max_self]
  apply List.ext_getElem?
  intro i
  by_cases h : i < cs.length
  · simp [List.getElem?_range, h, List.getElem?_eq_getElem h]
  · have h2 : cs.length ≤ i := Nat.le_of_not_lt h
    simp [List.getElem?_range, h, List.getElem?_eq_none h2]
    exact h2

lemma secondPassGo_noop (parent : Option Nat) :
    ∀ (olds : List MVNode) (i : Nat) (matched : List Nat) (st : MSt),
      (∀ j c, olds[j]? = some c → matched.contains (i + j) = true ∨ c.dom = none) →
      secondPassGo parent i olds matched st = st := by
  intro olds
  induction olds with
  | nil => intro i matched st h; rfl
  | cons c rest ih =>
    intro i matched st h
    have hrest : ∀ j d, rest[j]? = some d →
        matched.contains (i + 1 + j) = true ∨ d.dom = none := by
      intro j d hg
      have := h (j + 1) d (by simpa using hg)
      rwa [show i + (j + 1) = i + 1 + j from by omega] at this
    simp only [secondPassGo]
    rcases h 0 c (by simp) with hc | hc
    · rw [show i + 0 = i from rfl] at hc
      rw [hc]
      simp only [reduceIte]
      exact ih (i + 1) matched st hrest
    · rw [hc]
      cases parent with
      | none =>
        simp only [ite_self]
        exact ih (i + 1) matched st hrest
      | some p =>
        simp only [ite_self]
        exact ih (i + 1) matched st hrest

lemma byIndexGo_self (parent : Option Nat) (F : Nat)
    (Hm : ∀ t p2 st2, wellKeyed t = true → 4 * msize t + 1 ≤ F →
      mdiff (F - 1) (some t) (some t) p2 st2 = (some t, st2)) :
    ∀ (list : List MVNode) (st : MSt) (acc : List MVNode),
      (∀ c ∈ list, wellKeyed c = true ∧ 4 * msize c + 1 ≤ F) →
      byIndexGo F (list.map (fun c => (some c, some c))) parent st acc = (acc ++ list, st) := by
  intro list
  induction list with
  | nil =>
    intro st acc h
    cases F with
    | zero => simp [byIndexGo]
    | succ k => simp [byIndexGo]
  | cons c rest ih =>
    intro st acc h
    have hc := h c (by simp)
    obtain ⟨k, rfl⟩ : ∃ k, F = k + 1 := ⟨F - 1, by omega⟩
    rw [List.map_cons]
    simp only [byIndexGo]
    have hm : mdiff k (some c) (some c) parent st = (some c, st) :=
      Hm c parent st hc.1 hc.2
    simp only [hm, Option.toList]
    rw [ih st (acc ++ [c]) (fun d hd => h d (List.mem_cons_of_mem c hd))]
    simp

lemma firstPassGo_self (parent : Option Nat) (F : Nat) (ncs : List MVNode)
    (hnd : (ncs.filterMap MVNode.key).Nodup)
    (Hm : ∀ t p2 st2, wellKeyed t = true → 4 * msize t + 1 ≤ F →
      mdiff (F - 1) (some t) (some t) p2 st2 = (some t, st2)) :
    ∀ (suffix : List MVNode) (idx : Nat) (st : MSt) (matched : List Nat)
      (queue : List POp) (out : List MVNode),
      (∀ j c, suffix[j]? = some c → ncs[idx + j]? = some c) →
      (∀ c ∈ suffix, wellKeyed c = true ∧ 4 * msize c + 1 ≤ F) →
      firstPassGo F (buildKeyMap ncs) idx suffix parent st matched queue out =
        (st, matched ++ keyedIdxs idx suffix, queue ++ updateOps idx suffix, out ++ suffix) := by
  intro suffix
  induction suffix with
  | nil =>
    intro idx st matched queue out hpos hwf
    cases F with
    | zero => simp [firstPassGo, keyedIdxs, updateOps]
    | succ k => simp [firstPassGo, keyedIdxs, updateOps]
  | cons c rest ih =>
    intro idx st matched queue out hpos hwf
    have hc := hwf c (by simp)
    obtain ⟨k, rfl⟩ : ∃ k, F = k + 1 := ⟨F - 1, by omega⟩
    have hposrest : ∀ j d, rest[j]? = some d → ncs[idx + 1 + j]? = some d := by
      intro j d hg
      have := hpos (j + 1) d (by simpa using hg)
      rwa [show idx + (j + 1) = idx + 1 + j from by omega] at this
    have hwfrest : ∀ d ∈ rest, wellKeyed d = true ∧ 4 * msize d + 1 ≤ k + 1 :=
      fun d hd => hwf d (List.mem_cons_of_mem c hd)
    simp only [firstPassGo]
    cases hck : c.key with
    | none =>
      rw [ih (idx + 1) st matched (queue ++ [POp.update c idx]) (out ++ [c]) hposrest hwfrest]
      simp [keyedIdxs, updateOps, hck]
    | some kk =>
      have hkey : mapGet (buildKeyMap ncs) kk = some (c, idx) := by
        rw [buildKeyMap_get]
        rw [findLastKey_of_nodup ncs hnd idx c kk (by simpa using hpos 0 c (by simp)) hck]
      have hm : mdiff k (some c) (some c) parent st = (some c, st) :=
        Hm c parent st hc.1 hc.2
      simp only [hkey, hm]
      have hstep :
          firstPassGo (k + 1) (buildKeyMap ncs) (idx + 1) rest parent st (matched ++ [idx])
              queue (out ++ (some c).toList) =
            (st, (matched ++ [idx]) ++ keyedIdxs (idx + 1) rest,
              queue ++ updateOps (idx + 1) rest, (out ++ [c]) ++ rest) := by
        rw [show (some c).toList = [c] from rfl]
        exact ih (idx + 1) st (matched ++ [idx]) queue (out ++ [c]) hposrest hwfrest
      cases parent with
      | none =>
        rw [hstep]
        simp [keyedIdxs, updateOps, hck]
      | some p =>
        cases hdm : c.dom with
        | none =>
          rw [hstep]
          simp [keyedIdxs, updateOps, hck]
        | some d =>
          simp only [ne_eq, not_true_eq_false, false_and, if_false, reduceIte]
          rw [hstep]
          simp [keyedIdxs, updateOps, hck]

lemma thirdPassGo_self (parent : Option Nat) (F : Nat) (ncs : List MVNode)
    (Hm : ∀ t p2 st2, wellKeyed t = true → 4 * msize t + 1 ≤ F →
      mdiff (F - 1) (some t) (some t) p2 st2 = (some t, st2)) :
    ∀ (q : List POp) (st : MSt),
      (∀ c i, POp.update c i ∈ q →
        ncs[i]? = some c ∧ wellKeyed c = true ∧ 4 * msize c + 1 ≤ F) →
      (∀ c i, POp.insert c i ∉ q) →
      thirdPassGo F q ncs parent st = st := by
  intro q
  induction q with
  | nil =>
    intro st hupd hins
    cases F with
    | zero => simp [thirdPassGo]
    | succ k => simp [thirdPassGo]
  | cons x rest ih =>
    intro st hupd hins
    cases x with
    | insert c i => exact absurd (by simp) (hins c i)
    | update c i =>
      have hc := hupd c i (by simp)
      obtain ⟨k, rfl⟩ : ∃ k, F = k + 1 := ⟨F - 1, by omega⟩
      simp only [thirdPassGo]
      rw [hc.1]
      have hm : mdiff k (some c) (some c) parent st = (some c, st) :=
        Hm c parent st hc.2.1 hc.2.2
      simp only [hm]
      exact ih st (fun d j hd => hupd d j (List.mem_cons_of_mem _ hd))
        (fun d j hd => hins d j (List.mem_cons_of_mem _ hd))

lemma msize_eq (t : MVNode) : msize t = msizeList t.children + 1 := by
  cases t
  rfl

lemma wellKeyed_parts {t : MVNode} (h : wellKeyed t = true) :
    (t.props.map Prod.fst).Nodup ∧
    ((t.children.map normalizeChild).filterMap MVNode.key).Nodup ∧
    (!((t.children.map normalizeChild).any (fun c => c.key.isSome)) ||
      (t.children.map normalizeChild).all (fun c => c.key.isSome || c.dom == none)) = true ∧
    wellKeyedList t.children = true := by
  cases t with
  | mk ty tg ps cs k d s =>
    unfold wellKeyed at h
    simp only [Bool.and_eq_true, decide_eq_true_eq] at h
    exact ⟨h.1.1.1, h.1.1.2, h.1.2, h.2⟩

lemma diffChildrenM_self (parent : Option Nat) (F : Nat) (cs : List MVNode)
    (hnd : ((cs.map normalizeChild).filterMap MVNode.key).Nodup)
    (hmix : (!((cs.map normalizeChild).any (fun c => c.key.isSome)) ||
      (cs.map normalizeChild).all (fun c => c.key.isSome || c.dom == none)) = true)
    (hwl : wellKeyedList cs = true)
    (hfuel : 4 * msizeList cs + 3 ≤ F)
    (Hm : ∀ m (t : MVNode) p2 st2, m + 1 ≤ F → wellKeyed t = true → 4 * msize t ≤ m →
      mdiff m (some t) (some t) p2 st2 = (some t, st2)) :
    ∀ st, diffChildrenM F cs cs parent st = (cs.map normalizeChild, st) := by
  intro st
  obtain ⟨g, rfl⟩ : ∃ g, F = g + 1 := ⟨F - 1, by omega⟩
  obtain ⟨h, rfl⟩ : ∃ h2, g = h2 + 1 := ⟨g - 1, by omega⟩
  have hchild : ∀ c ∈ cs.map normalizeChild, wellKeyed c = true ∧ 4 * msize c + 1 ≤ h := by
    intro c hc
    obtain ⟨c0, hc0, rfl⟩ := List.mem_map.mp hc
    constructor
    · exact wellKeyed_normalizeChild (wellKeyedList_mem hc0 hwl)
    · have h1 : msize (normalizeChild c0) ≤ msize c0 := msize_normalizeChild c0
      have h2 : msize c0 ≤ msizeList cs := msizeList_le hc0
      omega
  have HmInner : ∀ (t : MVNode) p2 st2, wellKeyed t = true → 4 * msize t + 1 ≤ h →
      mdiff (h - 1) (some t) (some t) p2 st2 = (some t, st2) := by
    intro t p2 st2 hw hf
    exact Hm (h - 1) t p2 st2 (by omega) hw (by omega)
  simp only [diffChildrenM]
  cases hk : (cs.map normalizeChild).any (fun c => c.key.isSome) with
  | false =>
    rw [if_neg (by simp)]
    simp only [diffChildrenByIndexM]
    rw [selfPairs]
    rw [byIndexGo_self parent h HmInner (cs.map normalizeChild) st [] hchild]
    simp
  | true =>
    rw [if_pos rfl]
    simp only [diffChildrenWithKeysM]
    rw [firstPassGo_self parent h (cs.map normalizeChild) hnd HmInner
      (cs.map normalizeChild) 0 st [] [] []
      (fun j c hg => by simpa using hg) hchild]
    have hall : ∀ c ∈ cs.map normalizeChild, (c.key.isSome || c.dom == none) = true := by
      rw [hk] at hmix
      simp only [Bool.not_true, Bool.false_or, List.all_eq_true] at hmix
      exact hmix
    rw [secondPassGo_noop parent (cs.map normalizeChild) 0 ([] ++ keyedIdxs 0 (cs.map normalizeChild)) st ?hcov]
    case hcov =>
      intro j c hg
      cases hks : c.key.isSome with
      | true =>
        left
        have hmem := keyedIdxs_mem (cs.map normalizeChild) 0 j c hg hks
        simp only [List.nil_append]
        exact List.elem_eq_true_of_mem hmem
      | false =>
        right
        have := hall c (by
          have := List.getElem?_eq_some_iff.mp hg
          obtain ⟨hlt, hEq⟩ := this
          rw [← hEq]
          exact List.getElem_mem _)
        rw [hks] at this
        simpa using this
    rw [thirdPassGo_self parent h (cs.map normalizeChild) HmInner
      ([] ++ updateOps 0 (cs.map normalizeChild)) st ?hupd ?hins]
    case hupd =>
      intro c i hmem
      simp only [List.nil_append] at hmem
      obtain ⟨j, d, hx, hg, hkey⟩ := updateOps_mem (cs.map normalizeChild) 0 _ hmem
      have hcd : c = d ∧ i = 0 + j := by
        cases hx
        exact ⟨rfl, rfl⟩
      obtain ⟨rfl, rfl⟩ := hcd
      refine ⟨by simpa using hg, ?_, ?_⟩
      · exact (hchild c (by
          have := List.getElem?_eq_some_iff.mp hg
          obtain ⟨hlt, hEq⟩ := this
          rw [← hEq]
          exact List.getElem_mem _)).1
      · exact (hchild c (by
          have := List.getElem?_eq_some_iff.mp hg
          obtain ⟨hlt, hEq⟩ := this
          rw [← hEq]
          exact List.getElem_mem _)).2
    case hins =>
      intro c i hmem
      simp only [List.nil_append] at hmem
      obtain ⟨j, d, hx, hg, hkey⟩ := updateOps_mem (cs.map normalizeChild) 0 _ hmem
      cases hx
    simp

lemma mdiff_self : ∀ (fuel : Nat) (t : MVNode) (parent : Option Nat) (st : MSt),
    wellKeyed t = true → 4 * msize t ≤ fuel →
    mdiff fuel (some t) (some t) parent st = (some t, st) := by
  intro fuel
  induction fuel using Nat.strong_induction_on with
  | _ fuel IH =>
    intro t parent st hw hf
    have hp := msize_pos t
    obtain ⟨f1, rfl⟩ : ∃ k, fuel = k + 1 := ⟨fuel - 1, by omega⟩
    obtain ⟨hnd, hknd, hmix, hwl⟩ := wellKeyed_parts hw
    have hcs : 4 * msizeList t.children + 3 ≤ f1 := by
      have := msize_eq t
      omega
    have Hm : ∀ m (u : MVNode) p2 st2, m + 1 ≤ f1 → wellKeyed u = true → 4 * msize u ≤ m →
        mdiff m (some u) (some u) p2 st2 = (some u, st2) := by
      intro m u p2 st2 hm hwu hfu
      exact IH m (by omega) u p2 st2 hwu hfu
    simp only [mdiff]
    rw [if_neg (by simp)]
    rw [setDom_self]
    cases hty : t.ty with
    | text =>
      simp only [hty]
      rw [if_neg (by simp)]
    | raw => simp only [hty]
    | element =>
      simp only [hty]
      have hchildren := diffChildrenM_self t.dom f1 t.children hknd hmix hwl hcs Hm st
      cases hd : t.dom with
      | none =>
        simp only [hd]
        rw [hd] at hchildren
        simp only [hchildren]
      | some d =>
        simp only [hd]
        rw [updateElement_self d t.props hnd]
        rw [hd] at hchildren
        simp only [List.append_nil]
        have hst : { st with ops := st.ops } = st := rfl
        rw [hst]
        simp only [hchildren]
    | fragment =>
      simp only [hty]
      have hchildren := diffChildrenM_self parent f1 t.children hknd hmix hwl hcs Hm st
      simp only [hchildren]

/-! ### Keyed permutation reconciliation (claim C4 machinery)

When the new children list is a permutation of the old (all keyed, distinct
keys, every node already mounted), the first pass matches every key, every
old index ends up in the matched set, and the only operations the whole of
`diffChildrenWithKeys` performs are `insertBefore` moves of existing
nodes — no node is created or destroyed. -/

def isMove : MOp → Bool
  | .insertNodeBefore _ _ _ => true
  | _ => false

lemma firstPassGo_perm (p : Nat) (F : Nat) (olds : List MVNode)
    (hnd : (olds.filterMap MVNode.key).Nodup)
    (HmF : ∀ t p2 st2, wellKeyed t = true → 4 * msize t + 1 ≤ F →
      mdiff (F - 1) (some t) (some t) p2 st2 = (some t, st2)) :
    ∀ (suffix : List MVNode) (idx : Nat) (st : MSt) (matched : List Nat)
      (queue : List POp) (out : List MVNode),
      (∀ c ∈ suffix, c ∈ olds ∧ c.key.isSome = true ∧ wellKeyed c = true ∧ 4 * msize c + 1 ≤ F) →
      ∃ (midxs : List Nat) (moves : List MOp) (dom2 : Dom),
        firstPassGo F (buildKeyMap olds) idx suffix (some p) st matched queue out =
          ({ ops := st.ops ++ moves, fresh := st.fresh, dom := dom2 },
            matched ++ midxs, queue, out ++ suffix) ∧
        (∀ op ∈ moves, isMove op = true) ∧
        (∀ j c, olds[j]? = some c → c ∈ suffix → j ∈ matched ++ midxs) := by
  intro suffix
  induction suffix with
  | nil =>
    intro idx st matched queue out hc
    refine ⟨[], [], st.dom, ?_, by simp, by simp⟩
    cases F with
    | zero => simp [firstPassGo]
    | succ k => simp [firstPassGo]
  | cons c rest ih =>
    intro idx st matched queue out hcs
    obtain ⟨hmem, hkeyS, hwc, hfc⟩ := hcs c (by simp)
    obtain ⟨k, rfl⟩ : ∃ k, F = k + 1 := ⟨F - 1, by omega⟩
    obtain ⟨kk, hck⟩ := Option.isSome_iff_exists.mp hkeyS
    obtain ⟨j0, hj0⟩ := List.getElem?_of_mem hmem
    have hlast : findLastKey olds kk = some (c, j0) :=
      findLastKey_of_nodup olds hnd j0 c kk hj0 hck
    have hkey : mapGet (buildKeyMap olds) kk = some (c, j0) := by
      rw [buildKeyMap_get, hlast]
    have hm : mdiff k (some c) (some c) (some p) st = (some c, st) :=
      HmF c (some p) st hwc hfc
    have hrest : ∀ d ∈ rest, d ∈ olds ∧ d.key.isSome = true ∧ wellKeyed d = true ∧
        4 * msize d + 1 ≤ k + 1 := fun d hd => hcs d (List.mem_cons_of_mem c hd)
    have huniq : ∀ j, olds[j]? = some c → j = j0 := by
      intro j hj
      have := findLastKey_of_nodup olds hnd j c kk hj hck
      rw [hlast] at this
      simpa using this.symm
    cases hdm : c.dom with
    | none =>
      simp only [firstPassGo, hck, hkey, hm, Option.toList, hdm]
      obtain ⟨midxs2, moves2, dom2, heq, hmv, hcov⟩ :=
        ih (idx + 1) st (matched ++ [j0]) queue (out ++ [c]) hrest
      refine ⟨[j0] ++ midxs2, moves2, dom2, ?_, hmv, ?_⟩
      · rw [heq]
        simp
      · intro j c2 hj hc2
        rcases List.mem_cons.mp hc2 with rfl | hc2
        · have := huniq j hj
          subst this
          simp
        · have := hcov j c2 hj hc2
          simpa [List.append_assoc] using this
    | some d =>
      simp only [firstPassGo, hck, hkey, hm, Option.toList, hdm]
      by_cases hcond : j0 ≠ idx ∧ (domGet st.dom p)[idx]? ≠ some d
      · rw [if_pos hcond]
        obtain ⟨midxs2, moves2, dom2, heq, hmv, hcov⟩ :=
          ih (idx + 1)
            { st with ops := st.ops ++ [.insertNodeBefore p d (domGet st.dom p)[idx]?],
                      dom := domInsertBefore st.dom p d (domGet st.dom p)[idx]? }
            (matched ++ [j0]) queue (out ++ [c]) hrest
        refine ⟨[j0] ++ midxs2,
          [MOp.insertNodeBefore p d (domGet st.dom p)[idx]?] ++ moves2, dom2, ?_, ?_, ?_⟩
        · rw [heq]
          simp
        · intro op hop
          rcases List.mem_append.mp hop with hop | hop
          · rcases List.mem_singleton.mp hop with rfl
            rfl
          · exact hmv op hop
        · intro j c2 hj hc2
          rcases List.mem_cons.mp hc2 with rfl | hc2
          · have := huniq j hj
            subst this
            simp
          · have := hcov j c2 hj hc2
            simpa [List.append_assoc] using this
      · rw [if_neg hcond]
        obtain ⟨midxs2, moves2, dom2, heq, hmv, hcov⟩ :=
          ih (idx + 1) st (matched ++ [j0]) queue (out ++ [c]) hrest
        refine ⟨[j0] ++ midxs2, moves2, dom2, ?_, hmv, ?_⟩
        · rw [heq]
          simp
        · intro j c2 hj hc2
          rcases List.mem_cons.mp hc2 with rfl | hc2
          · have := huniq j hj
            subst this
            simp
          · have := hcov j c2 hj hc2
            simpa [List.append_assoc] using this

lemma diffChildrenWithKeysM_perm (p : Nat) (F : Nat) (olds news : List MVNode) (st : MSt)
    (hperm : news.Perm olds)
    (hnd : (olds.filterMap MVNode.key).Nodup)
    (hOK : ∀ c ∈ olds, c.key.isSome = true ∧ wellKeyed c = true ∧ 4 * msize c + 2 ≤ F) :
    ∃ (moves : List MOp) (dom2 : Dom),
      diffChildrenWithKeysM F olds news (some p) st =
        (news, { ops := st.ops ++ moves, fresh := st.fresh, dom := dom2 }) ∧
      ∀ op ∈ moves, isMove op = true := by
  cases F with
  | zero =>
    cases olds with
    | cons o os =>
      have := hOK o (by simp)
      omega
    | nil =>
      have hn : news = [] := hperm.eq_nil
      subst hn
      exact ⟨[], st.dom, by simp [diffChildrenWithKeysM], by simp⟩
  | succ g =>
    have HmF : ∀ (t : MVNode) p2 st2, wellKeyed t = true → 4 * msize t + 1 ≤ g →
        mdiff (g - 1) (some t) (some t) p2 st2 = (some t, st2) := by
      intro t p2 st2 hw hf
      exact mdiff_self (g - 1) t p2 st2 hw (by omega)
    obtain ⟨midxs, moves, dom2, heq, hmv, hcov⟩ :=
      firstPassGo_perm p g olds hnd HmF news 0 st [] [] []
        (fun c hc => ⟨hperm.subset hc, (hOK c (hperm.subset hc)).1,
          (hOK c (hperm.subset hc)).2.1, by have := (hOK c (hperm.subset hc)).2.2; omega⟩)
    simp only [diffChildrenWithKeysM, heq]
    have hsecond :
        secondPassGo (some p) 0 olds ([] ++ midxs)
          { ops := st.ops ++ moves, fresh := st.fresh, dom := dom2 } =
          { ops := st.ops ++ moves, fresh := st.fresh, dom := dom2 } := by
      apply secondPassGo_noop
      intro j c hj
      left
      have hcnews : c ∈ news := (hperm.symm.subset) (by
        rcases List.getElem?_eq_some_iff.mp hj with ⟨hlt, hEq⟩
        rw [← hEq]
        exact List.getElem_mem _)
      have := hcov j c hj hcnews
      exact List.elem_eq_true_of_mem (by simpa using this)
    rw [hsecond]
    have hthird :
        thirdPassGo g [] olds (some p)
          { ops := st.ops ++ moves, fresh := st.fresh, dom := dom2 } =
          { ops := st.ops ++ moves, fresh := st.fresh, dom := dom2 } := by
      cases g with
      | zero => simp [thirdPassGo]
      | succ g2 => simp [thirdPassGo]
    rw [hthird]
    exact ⟨moves, dom2, by simp, hmv⟩

end MJS

/-!
## `Core`: the engine of `lib/minima-core.js`

VNodes are `createElement` objects `{type, props, key}` (children live in
`props.children`, modelled as a separate field that `updateProps` skips,
exactly as the source skips the `children` key), or bare strings/numbers.
`type` is an HTML tag name or a component function (a function identity,
modelled by `CTag.comp id`).

The runtime state mirrors the module-level mutable state of the file:
`currentComponent`, `hookIndex`, the `components` WeakMap (an association
list keyed by the component-function id), the `renderQueue` Set (insertion
ordered list — it can contain `null`, hence `Option Nat`), and
`isRendering`.  `flushesArmed` counts how many microtask flushes were armed
(`Promise.resolve().then(...)`) and `events` logs effect/cleanup runs and
DOM mutations — both are observability instrumentation of the embedding,
not extra behaviour.  `renderStart c` is logged when `renderComponent(c)`
is entered, to observe which instances re-render.
-/

namespace Core

inductive CTag : Type where
  | tag (s : String)
  | comp (id : Nat)
deriving DecidableEq, Repr

inductive CVNode : Type where
  | str (s : String)
  | num (n : Int)
  | node (ty : CTag) (props : List (String × PropVal)) (children : List CVNode)
      (key : Option String) : CVNode

/-- `vnode.type`: `undefined` (`none`) for bare strings and numbers. -/
def ctype : CVNode → Option CTag
  | .str _ => none
  | .num _ => none
  | .node t _ _ _ => some t

/-- `typeof vnode === 'string' || typeof vnode === 'number'`. -/
def isPrim : CVNode → Bool
  | .str _ => true
  | .num _ => true
  | .node _ _ _ _ => false

/-- Strict equality `oldVNode !== newVNode` (negated) for primitive VNodes:
value equality within a type, never across types. -/
def primEq : CVNode → CVNode → Bool
  | .str a, .str b => a == b
  | .num a, .num b => a == b
  | _, _ => false

/-- String coercion performed by `textContent = newVNode`. -/
def textOf : CVNode → String
  | .str s => s
  | .num n => toString n
  | .node _ _ _ _ => ""

/-- JS falsiness of a (possibly absent) VNode: `undefined`/`null`, `""` and
`0` are falsy. -/
def falsy : Option CVNode → Bool
  | none => true
  | some (.str s) => s == ""
  | some (.num n) => n == 0
  | some (.node _ _ _ _) => false

def CVNode.props : CVNode → List (String × PropVal)
  | .str _ => []
  | .num _ => []
  | .node _ ps _ _ => ps

def CVNode.children : CVNode → List CVNode
  | .str _ => []
  | .num _ => []
  | .node _ _ cs _ => cs

/-- Observable actions of the core runtime. -/
inductive CoreEv : Type where
  | renderStart (c : Option Nat)
  | effectRun (id : Nat)
  | cleanupRun (id : Nat)
  | createNode (id : Nat)
  | domAppend (container id : Nat)
  | domRemove (container : Nat) (index : Nat)
  | domReplace (container : Nat) (index : Nat) (newId : Nat)
  | domSetText (container : Nat) (index : Nat) (s : String)
  | setProp (id : Nat) (name : String) (value : PropVal)
  | setAttr (id : Nat) (name : String) (value : PropVal)
  | removeAttr (id : Nat) (name : String)
  | addListener (id : Nat) (event : String)
  | removeListener (id : Nat) (event : String)
deriving DecidableEq, Repr

/-- An effect/cleanup event (produced only while a component function body
runs). -/
def CoreEv.isHook : CoreEv → Bool
  | .effectRun _ => true
  | .cleanupRun _ => true
  | _ => false

/-- A DOM mutation event (produced only by `createDOMElement`, `diff` and
`updateProps`). -/
def CoreEv.isDom : CoreEv → Bool
  | .createNode _ => true
  | .domAppend _ _ => true
  | .domRemove _ _ => true
  | .domReplace _ _ _ => true
  | .domSetText _ _ _ => true
  | .setProp _ _ _ => true
  | .setAttr _ _ _ => true
  | .removeAttr _ _ => true
  | .addListener _ _ => true
  | .removeListener _ _ => true
  | _ => false

/-- Hook state values. The claims only exercise primitive state (counters),
compared by `!==`, which is value equality for primitives. -/
abbrev Val := Int

inductive Hook : Type where
  | hstate (v : Val)
  | heffect (deps : Option (List Val)) (cleanup : Option Nat)
deriving DecidableEq, Repr

/-- Argument to a state setter: a plain value or an updater function. -/
inductive SetArg : Type where
  | val (v : Val)
  | updater (f : Val → Val)

/-- One record of the `components` WeakMap
(`-x7b element, oldVNode, props, hooks -x7d`; `hooks` starts absent, which is
behaviourally the empty array for the `comp.hooks[idx] === undefined`
checks). -/
structure CompData : Type where
  element : Option Nat
  oldVNode : Option CVNode
  props : List (String × PropVal)
  hooks : List Hook

structure CoreState : Type where
  currentComponent : Option Nat
  hookIndex : Nat
  components : List (Nat × CompData)
  renderQueue : List (Option Nat)
  isRendering : Bool
  flushesArmed : Nat
  events : List CoreEv
  fresh : Nat
  dom : Dom

def lookupComp (st : CoreState) (c : Nat) : Option CompData :=
  (st.components.find? (fun e => e.1 == c)).map (fun e => e.2)

/-- `components.set(c, cd)` — replace in place or append. -/
def setComp (st : CoreState) (c : Nat) (cd : CompData) : CoreState :=
  if st.components.any (fun e => e.1 == c) then
    { st with components := st.components.map (fun e => if e.1 == c then (c, cd) else e) }
  else
    { st with components := st.components ++ [(c, cd)] }

/-- One component body, as the sequence of hook calls / actions its
invocation performs, plus the VNode it returns (a function of the hook
cells after the body ran). These describe the test components the claims
are about; the runtime they drive is translated from the source. -/
inductive BodyOp : Type where
  | bstate (initial : Val)
  | beffect (effId : Nat) (deps : Option (List Val)) (hasCleanup : Bool)
  | bset (owner : Nat) (slot : Nat) (arg : SetArg)
  | bthrow (msg : String)

structure CompDef : Type where
  body : List BodyOp
  view : List Hook → CVNode

abbrev CompEnv := Nat → CompDef

/-- `scheduleRender` (lib/minima-core.js 65-75): add to the pending Set;
when no flush is pending (`!isRendering`), arm one (the armed microtask is
counted in `flushesArmed` and executed later as `flushMicrotask`). -/
def scheduleRender (component : Option Nat) (st : CoreState) : CoreState :=
  let q := if st.renderQueue.contains component then st.renderQueue
           else st.renderQueue ++ [component]
  if st.isRendering then { st with renderQueue := q }
  else { st with renderQueue := q, isRendering := true, flushesArmed := st.flushesArmed + 1 }

/-- The dependency comparison of `useEffect` (lib/minima-core.js 50-52):
`!hook.deps || !deps || deps.length !== hook.deps.length || deps.some((dep, i)
=> dep !== hook.deps[i])`. `none` covers both `undefined` (fresh cell) and
`null` (stored for an omitted `deps`); note `[]` is truthy in JS. -/
def depsChanged (prev cur : Option (List Val)) : Bool :=
  match prev, cur with
  | none, _ => true
  | _, none => true
  | some pd, some cd => cd.length != pd.length || (cd.zip pd).any (fun ab => ab.1 != ab.2)

/-- One `useEffect` visit to one hook cell (lib/minima-core.js 47-58):
returns the new cell and the logged events. When the dependencies changed,
the previous cleanup (if any) runs first, then the effect; the cell stores
a copy of `deps` (`null` when omitted) and the returned cleanup. -/
def useEffectVisit (cell : Option Hook) (effId : Nat) (deps : Option (List Val))
    (hasCleanup : Bool) : Hook × List CoreEv :=
  let prevDeps : Option (List Val) :=
    match cell with
    | some (.heffect d _) => d
    | _ => none
  let prevCleanup : Option Nat :=
    match cell with
    | some (.heffect _ c) => c
    | _ => none
  if depsChanged prevDeps deps then
    (.heffect deps (if hasCleanup then some effId else none),
      (match prevCleanup with
       | some c => [CoreEv.cleanupRun c]
       | none => []) ++ [CoreEv.effectRun effId])
  else
    (cell.getD (.heffect none none), [])

/-- The `setState` closure (lib/minima-core.js 27-34). It captured the
owner's record and the hook index; `scheduleRender` is called on the LIVE
value of the module variable `currentComponent` at call time, not on the
owner. -/
def setStateCall (owner slot : Nat) (arg : SetArg) (st : CoreState) : CoreState :=
  match lookupComp st owner with
  | none => st
  | some cd =>
    match cd.hooks[slot]? with
    | some (.hstate cur) =>
      let value := match arg with
        | .val v => v
        | .updater f => f cur
      if cur = value then st
      else
        let st := setComp st owner { cd with hooks := cd.hooks.set slot (.hstate value) }
        scheduleRender st.currentComponent st
    | _ => st

/-- Execution of a component function body: the sequence of its hook calls
(`useState` lib/minima-core.js 18-37, `useEffect` 40-59) and of the setter
calls it makes synchronously, in an `Except`-like shape (`some msg` =
thrown). -/
def runBody (env : CompEnv) : List BodyOp → CoreState → CoreState × Option String
  | [], st => (st, none)
  | op :: rest, st =>
    match op with
    | .bthrow msg => (st, some msg)
    | .bset owner slot arg => runBody env rest (setStateCall owner slot arg st)
    | .bstate initial =>
      match st.currentComponent with
      | none => (st, some "useState: outside component")
      | some cid =>
        match lookupComp st cid with
        | none => (st, some "TypeError: components.get(currentComponent) is undefined")
        | some cd =>
          let idx := st.hookIndex
          let st := { st with hookIndex := idx + 1 }
          let hooks := if idx < cd.hooks.length then cd.hooks else cd.hooks ++ [.hstate initial]
          runBody env rest (setComp st cid { cd with hooks := hooks })
    | .beffect effId deps hasCleanup =>
      match st.currentComponent with
      | none => (st, some "useEffect: outside component")
      | some cid =>
        match lookupComp st cid with
        | none => (st, some "TypeError: components.get(currentComponent) is undefined")
        | some cd =>
          let idx := st.hookIndex
          let st := { st with hookIndex := idx + 1 }
          let visit := useEffectVisit cd.hooks[idx]? effId deps hasCleanup
          let hooks := if idx < cd.hooks.length then cd.hooks.set idx visit.1
                       else cd.hooks ++ [visit.1]
          let st := setComp st cid { cd with hooks := hooks }
          runBody env rest { st with events := st.events ++ visit.2 }

/-- Abstraction of the DOM `key in element` check of `updateProps`
(lib/minima-core.js 201, 217): the common element property names. The
claims never depend on which branch is taken, only on whether an operation
happens at all. -/
def elemHasProp (k : String) : Bool :=
  k ∈ ["className", "id", "value", "checked", "style", "textContent", "title"]

/-- Removal loop of `updateProps` (lib/minima-core.js 196-207), on element
`node` (`none` = `undefined`, which faults as soon as a mutation is
attempted). -/
def removeOldPropsGo (node : Option Nat) (newProps : List (String × PropVal)) :
    List (String × PropVal) → List CoreEv × Option String
  | [] => ([], none)
  | kv :: rest =>
    if kv.1 == "children" then removeOldPropsGo node newProps rest
    else if propHas newProps kv.1 then removeOldPropsGo node newProps rest
    else
      match node with
      | none => ([], some "TypeError: cannot update property of undefined")
      | some el =>
        let ev :=
          if kv.1.startsWith "on" then CoreEv.removeListener el (MJS.eventOf kv.1)
          else if elemHasProp kv.1 then CoreEv.setProp el kv.1 (PropVal.str "")
          else CoreEv.removeAttr el kv.1
        let next := removeOldPropsGo node newProps rest
        (ev :: next.1, next.2)

/-- Set loop of `updateProps` (lib/minima-core.js 210-223). The
`removeEventListener` before `addEventListener` is guarded only by
truthiness of the old handler (no `typeof` check in this file). -/
def setNewPropsGo (node : Option Nat) (oldProps : List (String × PropVal)) :
    List (String × PropVal) → List CoreEv × Option String
  | [] => ([], none)
  | kv :: rest =>
    if kv.1 == "children" then setNewPropsGo node oldProps rest
    else if propGet oldProps kv.1 == some kv.2 then setNewPropsGo node oldProps rest
    else
      match node with
      | none => ([], some "TypeError: cannot update property of undefined")
      | some el =>
        let evs1 : List CoreEv :=
          if kv.1.startsWith "on" then
            (match propGet oldProps kv.1 with
             | some pv => if pv.truthy then [CoreEv.removeListener el (MJS.eventOf kv.1)] else []
             | none => []) ++ [CoreEv.addListener el (MJS.eventOf kv.1)]
          else if elemHasProp kv.1 then [CoreEv.setProp el kv.1 kv.2]
          else [CoreEv.setAttr el kv.1 kv.2]
        let next := setNewPropsGo node oldProps rest
        (evs1 ++ next.1, next.2)

/-- `updateProps` (lib/minima-core.js 194-224). -/
def updatePropsC (node : Option Nat) (oldProps newProps : List (String × PropVal)) :
    List CoreEv × Option String :=
  let fst := removeOldPropsGo node newProps oldProps
  match fst.2 with
  | some e => (fst.1, some e)
  | none =>
    let snd := setNewPropsGo node oldProps newProps
    (fst.1 ++ snd.1, snd.2)

/-- `element.parentNode` and the index of `element` in its
`parentNode.childNodes` (lib/minima-core.js 185-186). -/
def findParent (d : Dom) (el : Nat) : Option (Nat × Nat) :=
  match d.find? (fun e => e.2.contains el) with
  | some e => some (e.1, e.2.indexOf el)
  | none => none

/-- The mutually recursive procedures `createDOMElement`
(lib/minima-core.js 120-137), `renderFunction` (140-171) and `diff`
(78-117), merged into one fuel-indexed function so that the recursion is
structural (each job names the source procedure; the diff-children loop of
114-116 and the child-mount loop of 132-134 are the two list jobs).
Result: the created node id (for `mount`/`render` jobs), the state, and a
thrown error if any. -/
inductive CoreJob : Type where
  | mount (v : CVNode)
  | mountChildren (parentId : Nat) (cs : List CVNode)
  | render (f : Nat) (props : List (String × PropVal))
  | diffJob (o n : Option CVNode) (container : Option Nat) (index : Nat)
  | diffKids (oc nc : List CVNode) (container : Option Nat) (i : Nat)

def coreStep (env : CompEnv) : Nat → CoreJob → CoreState → Option Nat × CoreState × Option String
  | 0, _, st => (none, st, some "fuel exhausted")
  | fuel + 1, job, st =>
    match job with
    | .mount v =>
      match v with
      | .str _ =>
        let id := st.fresh
        (some id, { st with fresh := id + 1, events := st.events ++ [CoreEv.createNode id] }, none)
      | .num _ =>
        let id := st.fresh
        (some id, { st with fresh := id + 1, events := st.events ++ [CoreEv.createNode id] }, none)
      | .node (.comp f) props _ _ => coreStep env fuel (.render f props) st
      | .node (.tag _) props children _ =>
        let id := st.fresh
        let st := { st with fresh := id + 1, events := st.events ++ [CoreEv.createNode id],
                            dom := domSetChildren st.dom id [] }
        let up := updatePropsC (some id) [] props
        let st := { st with events := st.events ++ up.1 }
        match up.2 with
        | some e => (none, st, some e)
        | none =>
          let res := coreStep env fuel (.mountChildren id children) st
          match res.2.2 with
          | some e => (none, res.2.1, some e)
          | none => (some id, res.2.1, none)
    | .mountChildren p cs =>
      match cs with
      | [] => (none, st, none)
      | c :: rest =>
        let res := coreStep env fuel (.mount c) st
        match res.2.2 with
        | some e => (none, res.2.1, some e)
        | none =>
          let st :=
            match res.1 with
            | some cid =>
              { res.2.1 with events := res.2.1.events ++ [CoreEv.domAppend p cid],
                             dom := domAppendChild res.2.1.dom p cid }
            | none => res.2.1
          coreStep env fuel (.mountChildren p rest) st
    | .render f props =>
      let prevC := st.currentComponent
      let prevH := st.hookIndex
      let st := { st with currentComponent := some f, hookIndex := 0 }
      let st :=
        match lookupComp st f with
        | some _ => st
        | none => setComp st f { element := none, oldVNode := none, props := props, hooks := [] }
      let run := runBody env (env f).body st
      match run.2 with
      | some e => (none, run.1, some e)
      | none =>
        let st := run.1
        match lookupComp st f with
        | none => (none, st, some "unreachable: record was just created")
        | some cd =>
          let rendered := (env f).view cd.hooks
          if cd.element.isSome then
            (cd.element,
              { st with currentComponent := prevC, hookIndex := prevH }, none)
          else
            let res := coreStep env fuel (.mount rendered) st
            match res.2.2 with
            | some e => (none, res.2.1, some e)
            | none =>
              let st := res.2.1
              match lookupComp st f with
              | none => (none, st, some "unreachable: record was just created")
              | some cd2 =>
                let st := setComp st f { cd2 with element := res.1, oldVNode := some rendered }
                (res.1, { st with currentComponent := prevC, hookIndex := prevH }, none)
    | .diffJob o n container index =>
      if falsy n ∧ ¬ falsy o then
        -- Case: remove old node (lib/minima-core.js 80-83)
        match container with
        | none => (none, st, some "TypeError: cannot read removeChild of undefined")
        | some cont =>
          match (domGet st.dom cont)[index]? with
          | none => (none, st, some "TypeError: removeChild of undefined")
          | some _ =>
            (none, { st with events := st.events ++ [CoreEv.domRemove cont index],
                             dom := domSetChildren st.dom cont ((domGet st.dom cont).eraseIdx index) },
              none)
      else if ¬ falsy n ∧ falsy o then
        -- Case: add new node (86-89)
        match container with
        | none => (none, st, some "TypeError: cannot read appendChild of undefined")
        | some cont =>
          match n with
          | none => (none, st, some "unreachable: truthy implies present")
          | some nv =>
            let res := coreStep env fuel (.mount nv) st
            match res.2.2 with
            | some e => (none, res.2.1, some e)
            | none =>
              match res.1 with
              | none => (none, res.2.1, none)
              | some id =>
                (none, { res.2.1 with events := res.2.1.events ++ [CoreEv.domAppend cont id],
                                      dom := domAppendChild res.2.1.dom cont id }, none)
      else
        match o, n with
        | none, _ => (none, st, some "TypeError: cannot read type of undefined")
        | some _, none => (none, st, some "TypeError: cannot read type of undefined")
        | some ov, some nv =>
          if ctype ov ≠ ctype nv then
            -- Case: replace different types (92-95)
            match container with
            | none => (none, st, some "TypeError: cannot read replaceChild of undefined")
            | some cont =>
              let res := coreStep env fuel (.mount nv) st
              match res.2.2 with
              | some e => (none, res.2.1, some e)
              | none =>
                match res.1, (domGet res.2.1.dom cont)[index]? with
                | some id, some old =>
                  (none, { res.2.1 with
                            events := res.2.1.events ++ [CoreEv.domReplace cont index id],
                            dom := domReplaceChild res.2.1.dom cont old id }, none)
                | _, _ => (none, res.2.1, some "TypeError: replaceChild of undefined")
          else if isPrim nv then
            -- Text nodes (98-103)
            if primEq ov nv then (none, st, none)
            else
              match container with
              | none => (none, st, some "TypeError: cannot read childNodes of undefined")
              | some cont =>
                match (domGet st.dom cont)[index]? with
                | none => (none, st, some "TypeError: cannot set textContent of undefined")
                | some _ =>
                  (none, { st with events := st.events ++ [CoreEv.domSetText cont index (textOf nv)] },
                    none)
          else
            -- Update props, then diff children (105-116)
            match container with
            | none => (none, st, some "TypeError: cannot read childNodes of undefined")
            | some cont =>
              let nodeOpt := (domGet st.dom cont)[index]?
              let up := updatePropsC nodeOpt ov.props nv.props
              let st := { st with events := st.events ++ up.1 }
              match up.2 with
              | some e => (none, st, some e)
              | none => coreStep env fuel (.diffKids ov.children nv.children nodeOpt 0) st
    | .diffKids ocs ncs container i =>
      if i < max ocs.length ncs.length then
        let res := coreStep env fuel (.diffJob ocs[i]? ncs[i]? container i) st
        match res.2.2 with
        | some e => (none, res.2.1, some e)
        | none => coreStep env fuel (.diffKids ocs ncs container (i + 1)) res.2.1
      else (none, st, none)

/-- `createDOMElement` (lib/minima-core.js 120-137). -/
def createDOMElement (env : CompEnv) (fuel : Nat) (v : CVNode) (st : CoreState) :
    Option Nat × CoreState × Option String :=
  coreStep env fuel (.mount v) st

/-- `renderFunction` (lib/minima-core.js 140-171), for a component VNode
with function `f` and the given props. -/
def renderFunction (env : CompEnv) (fuel : Nat) (f : Nat) (props : List (String × PropVal))
    (st : CoreState) : Option Nat × CoreState × Option String :=
  coreStep env fuel (.render f props) st

/-- `diff` (lib/minima-core.js 78-117). -/
def cdiff (env : CompEnv) (fuel : Nat) (o n : Option CVNode) (container : Option Nat)
    (index : Nat) (st : CoreState) : CoreState × Option String :=
  let res := coreStep env fuel (.diffJob o n container index) st
  (res.2.1, res.2.2)

/-- `renderComponent` (lib/minima-core.js 174-191). A `renderStart` event
is logged on entry. `components.get(comp)` of a `null`/unknown component is
`undefined`, so reading `.element` throws; a mounted instance re-runs its
body, diffs against the stored `oldVNode` inside the parent of its cached
element, and stores the new tree. The context variables are restored only
on the success path — a thrown error leaves them clobbered, as in the
source. -/
def renderComponent (env : CompEnv) (fuel : Nat) (c : Option Nat) (st : CoreState) :
    CoreState × Option String :=
  let st := { st with events := st.events ++ [CoreEv.renderStart c] }
  match c with
  | none => (st, some "TypeError: cannot read element of undefined")
  | some cid =>
    match lookupComp st cid with
    | none => (st, some "TypeError: cannot read element of undefined")
    | some cd =>
      if cd.element.isNone then (st, none)
      else
        let prevC := st.currentComponent
        let prevH := st.hookIndex
        let st := { st with currentComponent := some cid, hookIndex := 0 }
        let run := runBody env (env cid).body st
        match run.2 with
        | some e => (run.1, some e)
        | none =>
          let st := run.1
          match lookupComp st cid with
          | none => (st, some "unreachable: record exists")
          | some cd2 =>
            let newVNode := (env cid).view cd2.hooks
            match cd2.element with
            | none => (st, some "unreachable: element checked above")
            | some el =>
              match findParent st.dom el with
              | none => (st, some "TypeError: cannot read childNodes of null")
              | some pi =>
                let res := cdiff env fuel cd2.oldVNode (some newVNode) (some pi.1) pi.2 st
                match res.2 with
                | some e => (res.1, some e)
                | none =>
                  match lookupComp res.1 cid with
                  | none => (res.1, some "unreachable: record exists")
                  | some cd3 =>
                    let st := setComp res.1 cid { cd3 with oldVNode := some newVNode }
                    ({ st with currentComponent := prevC, hookIndex := prevH }, none)

/-- The armed microtask of `scheduleRender` (lib/minima-core.js 69-73):
`renderQueue.forEach(renderComponent)` over the live, insertion-ordered Set
(elements added during the iteration are visited), then clear the queue and
drop `isRendering`. A thrown error propagates out of the microtask, leaving
the queue uncleared and `isRendering` stuck at `true`. -/
def flushQueueGo (env : CompEnv) : Nat → Nat → CoreState → CoreState × Option String
  | 0, _, st => (st, some "fuel exhausted")
  | fuel + 1, i, st =>
    match st.renderQueue[i]? with
    | some c =>
      let res := renderComponent env fuel c st
      match res.2 with
      | some e => (res.1, some e)
      | none => flushQueueGo env fuel (i + 1) res.1
    | none => ({ st with renderQueue := [], isRendering := false }, none)

def flushMicrotask (env : CompEnv) (fuel : Nat) (st : CoreState) : CoreState × Option String :=
  flushQueueGo env fuel 0 st

/-! ### Lemmas about the core runtime -/

lemma find_setList_self (l : List (Nat × CompData)) (c : Nat) (cd : CompData)
    (hm : l.any (fun e => e.1 == c) = true) :
    (l.map (fun e => if e.1 == c then (c, cd) else e)).find? (fun e => e.1 == c) =
      some (c, cd) := by
  induction l with
  | nil => simp at hm
  | cons e rest ih =>
    rw [List.any_cons] at hm
    simp only [List.map_cons, List.find?]
    by_cases he : e.1 = c
    · have h1 : (e.1 == c) = true := by simp [he]
      simp [h1]
    · have h1 : (e.1 == c) = false := by simp [he]
      rw [h1] at hm
      simp only [Bool.false_or] at hm
      simp only [h1, Bool.false_eq_true, if_neg, not_false_iff, List.find?]
      exact ih hm

lemma find_setList_ne (l : List (Nat × CompData)) (c c2 : Nat) (cd : CompData) (h : c ≠ c2) :
    (l.map (fun e => if e.1 == c then (c, cd) else e)).find? (fun e => e.1 == c2) =
      l.find? (fun e => e.1 == c2) := by
  induction l with
  | nil => rfl
  | cons e rest ih =>
    simp only [List.map_cons, List.find?]
    by_cases he : e.1 = c
    · have h1 : (e.1 == c) = true := by simp [he]
      have h2 : (c == c2) = false := by simp [h]
      have h3 : (e.1 == c2) = false := by rw [he]; exact h2
      simp only [h1, if_pos, h2, h3, List.find?]
      exact ih
    · have h1 : (e.1 == c) = false := by simp [he]
      simp only [h1, Bool.false_eq_true, if_neg, not_false_iff, List.find?]
      cases h2 : (e.1 == c2) with
      | true => rfl
      | false => exact ih

lemma lookupComp_setComp_self (st : CoreState) (c : Nat) (cd : CompData) :
    lookupComp (setComp st c cd) c = some cd := by
  unfold lookupComp setComp
  by_cases hm : st.components.any (fun e => e.1 == c)
  · simp only [hm, if_pos]
    rw [find_setList_self st.components c cd hm]
    rfl
  · simp only [hm, Bool.false_eq_true, if_neg, not_false_iff]
    rw [List.find?_append]
    have hnone : st.components.find? (fun e => e.1 == c) = none := by
      rw [List.find?_eq_none]
      intro x hx
      cases hbeq : (x.1 == c) with
      | false => exact Bool.false_ne_true
      | true => exact absurd (List.any_eq_true.mpr ⟨x, hx, hbeq⟩) hm
    rw [hnone]
    simp [List.find?]

lemma lookupComp_setComp_ne (st : CoreState) (c c2 : Nat) (cd : CompData) (h : c ≠ c2) :
    lookupComp (setComp st c cd) c2 = lookupComp st c2 := by
  unfold lookupComp setComp
  by_cases hm : st.components.any (fun e => e.1 == c)
  · simp only [hm, if_pos]
    rw [find_setList_ne st.components c c2 cd h]
  · simp only [hm, Bool.false_eq_true, if_neg, not_false_iff]
    rw [List.find?_append]
    have hone : List.find? (fun e => e.1 == c2) [(c, cd)] = none := by
      have : (c == c2) = false := by simp [h]
      simp [List.find?, this]
    rw [hone]
    cases List.find? (fun e => e.1 == c2) st.components with
    | none => rfl
    | some e => rfl

/-- Fields other than `components` are untouched by `setComp`. -/
lemma setComp_fields (st : CoreState) (c : Nat) (cd : CompData) :
    (setComp st c cd).events = st.events ∧
    (setComp st c cd).currentComponent = st.currentComponent ∧
    (setComp st c cd).renderQueue = st.renderQueue ∧
    (setComp st c cd).isRendering = st.isRendering ∧
    (setComp st c cd).flushesArmed = st.flushesArmed ∧
    (setComp st c cd).hookIndex = st.hookIndex ∧
    (setComp st c cd).fresh = st.fresh ∧
    (setComp st c cd).dom = st.dom := by
  unfold setComp
  by_cases hm : st.components.any (fun e => e.1 == c) <;> simp [hm]

lemma scheduleRender_events (c : Option Nat) (st : CoreState) :
    (scheduleRender c st).events = st.events ∧
    (scheduleRender c st).components = st.components := by
  unfold scheduleRender
  by_cases hr : st.isRendering <;> simp [hr]

lemma setStateCall_events (owner slot : Nat) (arg : SetArg) (st : CoreState) :
    (setStateCall owner slot arg st).events = st.events := by
  unfold setStateCall
  cases lookupComp st owner with
  | none => rfl
  | some cd =>
    simp only []
    cases cd.hooks[slot]? with
    | none => rfl
    | some hk =>
      cases hk with
      | heffect d c => rfl
      | hstate cur =>
        simp only []
        by_cases hv : cur = (match arg with | .val v => v | .updater f => f cur)
        · rw [if_pos hv]
        · rw [if_neg hv]
          rw [(scheduleRender_events _ _).1]
          exact (setComp_fields st owner _).1

/-- The hook events appended by one `useEffectVisit` are effect/cleanup
events. -/
lemma useEffectVisit_hookish (cell : Option Hook) (effId : Nat) (deps : Option (List Val))
    (hc : Bool) : ∀ e ∈ (useEffectVisit cell effId deps hc).2, e.isHook = true := by
  unfold useEffectVisit
  by_cases hch : depsChanged
      (match cell with | some (.heffect d _) => d | _ => none) deps
  · rw [if_pos hch]
    intro e he
    simp only [] at he
    rcases List.mem_append.mp he with he | he
    · rcases cell with _ | hk
      · simp at he
      · cases hk with
        | hstate v => simp at he
        | heffect d c =>
          cases c with
          | none => simp at he
          | some cl =>
            rcases List.mem_singleton.mp (by simpa using he) with rfl
            rfl
    · rcases List.mem_singleton.mp (by simpa using he) with rfl
      rfl
  · rw [if_neg hch]
    intro e he
    simp at he

/-- A component function body only appends effect/cleanup events. -/
lemma runBody_events (env : CompEnv) : ∀ (ops : List BodyOp) (st : CoreState),
    ∃ evs, (runBody env ops st).1.events = st.events ++ evs ∧
      ∀ e ∈ evs, CoreEv.isHook e = true := by
  intro ops
  induction ops with
  | nil => intro st; exact ⟨[], by simp [runBody], by simp⟩
  | cons op rest ih =>
    intro st
    cases op with
    | bthrow msg => exact ⟨[], by simp [runBody], by simp⟩
    | bset owner slot arg =>
      obtain ⟨evs, heq, hh⟩ := ih (setStateCall owner slot arg st)
      exact ⟨evs, by
        simp only [runBody]
        rw [heq, setStateCall_events], hh⟩
    | bstate initial =>
      simp only [runBody]
      cases st.currentComponent with
      | none => exact ⟨[], by simp, by simp⟩
      | some cid =>
        simp only []
        cases lookupComp st cid with
        | none => exact ⟨[], by simp, by simp⟩
        | some cd =>
          simp only []
          obtain ⟨evs, heq, hh⟩ := ih _
          refine ⟨evs, ?_, hh⟩
          rw [heq, (setComp_fields _ _ _).1]
    | beffect effId deps hc =>
      simp only [runBody]
      cases st.currentComponent with
      | none => exact ⟨[], by simp, by simp⟩
      | some cid =>
        simp only []
        cases hcd : lookupComp st cid with
        | none => exact ⟨[], by simp, by simp⟩
        | some cd =>
          simp only []
          obtain ⟨evs, heq, hh⟩ := ih _
          refine ⟨(useEffectVisit cd.hooks[st.hookIndex]? effId deps hc).2 ++ evs, ?_, ?_⟩
          · rw [heq]
            simp only [(setComp_fields _ _ _).1]
            simp [List.append_assoc]
          · intro e he
            rcases List.mem_append.mp he with he | he
            · exact useEffectVisit_hookish _ _ _ _ e he
            · exact hh e he

/-- `st2` preserves the `element` and `oldVNode` of every record of `st`
(hook updates are allowed). -/
def recPreserved (st st2 : CoreState) : Prop :=
  ∀ cid cd, lookupComp st cid = some cd →
    ∃ cd2, lookupComp st2 cid = some cd2 ∧ cd2.element = cd.element ∧ cd2.oldVNode = cd.oldVNode

lemma recPreserved_refl (st : CoreState) : recPreserved st st :=
  fun _ cd h => ⟨cd, h, rfl, rfl⟩

lemma recPreserved_trans {s1 s2 s3 : CoreState} (h1 : recPreserved s1 s2)
    (h2 : recPreserved s2 s3) : recPreserved s1 s3 := by
  intro cid cd h
  obtain ⟨cdB, hB, he, ho⟩ := h1 cid cd h
  obtain ⟨cdC, hC, he2, ho2⟩ := h2 cid cdB hB
  exact ⟨cdC, hC, he2.trans he, ho2.trans ho⟩

lemma recPreserved_events {st : CoreState} (evs : List CoreEv) :
    recPreserved st { st with events := st.events ++ evs } := by
  intro cid cd h
  exact ⟨cd, h, rfl, rfl⟩

lemma lookupComp_congr {stA stB : CoreState} (h : stB.components = stA.components) (c : Nat) :
    lookupComp stB c = lookupComp stA c := by
  unfold lookupComp
  rw [h]

/-- Overwriting a record's hooks (only) preserves elements and old trees;
`stB` is the (context-modified) state the write happens in, with the same
records as `stA`. -/
lemma recPreserved_setHooks (stA stB : CoreState) (cid : Nat) (cd : CompData)
    (hooks : List Hook) (hcomp : stB.components = stA.components)
    (h : lookupComp stA cid = some cd) :
    recPreserved stA (setComp stB cid { cd with hooks := hooks }) := by
  intro cid2 cd2 h2
  by_cases hc : cid = cid2
  · subst hc
    rw [h] at h2
    cases h2
    exact ⟨{ cd with hooks := hooks }, lookupComp_setComp_self _ _ _, rfl, rfl⟩
  · refine ⟨cd2, ?_, rfl, rfl⟩
    rw [lookupComp_setComp_ne _ _ _ _ hc, lookupComp_congr hcomp]
    exact h2

lemma recPreserved_scheduleRender {st : CoreState} (c : Option Nat) :
    recPreserved st (scheduleRender c st) := by
  intro cid cd h
  refine ⟨cd, ?_, rfl, rfl⟩
  unfold scheduleRender
  unfold lookupComp at h ⊢
  by_cases hr : st.isRendering <;> simp [hr] <;> exact (by simpa using h)

lemma recPreserved_setStateCall (owner slot : Nat) (arg : SetArg) (st : CoreState) :
    recPreserved st (setStateCall owner slot arg st) := by
  unfold setStateCall
  cases hcd : lookupComp st owner with
  | none => exact recPreserved_refl st
  | some cd =>
    simp only []
    cases cd.hooks[slot]? with
    | none => exact recPreserved_refl st
    | some hk =>
      cases hk with
      | heffect d c => exact recPreserved_refl st
      | hstate cur =>
        simp only []
        by_cases hv : cur = (match arg with | .val v => v | .updater f => f cur)
        · rw [if_pos hv]
          exact recPreserved_refl st
        · rw [if_neg hv]
          exact recPreserved_trans (recPreserved_setHooks st st owner cd _ rfl hcd)
            (recPreserved_scheduleRender _)

lemma recPreserved_hookIndex {st : CoreState} (n : Nat) :
    recPreserved st { st with hookIndex := n } := fun _ cd h => ⟨cd, h, rfl, rfl⟩

/-- A body run preserves every record's `element` and `oldVNode`
(hook cells are all it writes). -/
lemma runBody_records (env : CompEnv) : ∀ (ops : List BodyOp) (st : CoreState),
    recPreserved st (runBody env ops st).1 := by
  intro ops
  induction ops with
  | nil => intro st; exact recPreserved_refl st
  | cons op rest ih =>
    intro st
    cases op with
    | bthrow msg => exact recPreserved_refl st
    | bset owner slot arg =>
      exact recPreserved_trans (recPreserved_setStateCall owner slot arg st) (ih _)
    | bstate initial =>
      simp only [runBody]
      cases st.currentComponent with
      | none => exact recPreserved_refl st
      | some cid =>
        simp only []
        cases hcd : lookupComp st cid with
        | none => exact recPreserved_refl st
        | some cd =>
          simp only []
          refine recPreserved_trans ?_ (ih _)
          exact recPreserved_setHooks st _ cid cd _ rfl hcd
    | beffect effId deps hc =>
      simp only [runBody]
      cases st.currentComponent with
      | none => exact recPreserved_refl st
      | some cid =>
        simp only []
        cases hcd : lookupComp st cid with
        | none => exact recPreserved_refl st
        | some cd =>
          simp only []
          refine recPreserved_trans ?_ (ih _)
          refine recPreserved_trans ?_ (recPreserved_events _)
          exact recPreserved_setHooks st _ cid cd _ rfl hcd

/-! ### Trees without component nodes, and well-formed props -/

mutual

/-- No component function occurs in the tree: mounting/diffing it can only
perform DOM mutations (no hook effects fire). -/
def noComp : CVNode → Bool
  | .str _ => true
  | .num _ => true
  | .node (.comp _) _ _ _ => false
  | .node (.tag _) _ cs _ => noCompList cs

def noCompList : List CVNode → Bool
  | [] => true
  | c :: rest => noComp c && noCompList rest

end

mutual

/-- Props objects have unique keys at every level (JS objects cannot repeat
a key). -/
def coreWF : CVNode → Bool
  | .str _ => true
  | .num _ => true
  | .node _ ps cs _ => decide ((ps.map Prod.fst).Nodup) && coreWFList cs

def coreWFList : List CVNode → Bool
  | [] => true
  | c :: rest => coreWF c && coreWFList rest

end

lemma noCompList_mem {c : CVNode} {cs : List CVNode} (hc : c ∈ cs)
    (h : noCompList cs = true) : noComp c = true := by
  induction cs with
  | nil => cases hc
  | cons x rest ih =>
    unfold noCompList at h
    rw [Bool.and_eq_true] at h
    rcases List.mem_cons.mp hc with hh | hh
    · exact hh ▸ h.1
    · exact ih hh h.2

lemma coreWFList_mem {c : CVNode} {cs : List CVNode} (hc : c ∈ cs)
    (h : coreWFList cs = true) : coreWF c = true := by
  induction cs with
  | nil => cases hc
  | cons x rest ih =>
    unfold coreWFList at h
    rw [Bool.and_eq_true] at h
    rcases List.mem_cons.mp hc with hh | hh
    · exact hh ▸ h.1
    · exact ih hh h.2

/-! ### `updateProps` lemmas -/

lemma removeOldPropsGo_dom (node : Option Nat) (newProps : List (String × PropVal)) :
    ∀ sub, ∀ e ∈ (removeOldPropsGo node newProps sub).1, e.isDom = true := by
  intro sub
  induction sub with
  | nil => intro e he; cases he
  | cons kv rest ih =>
    intro e he
    unfold removeOldPropsGo at he
    by_cases h1 : kv.1 == "children"
    · rw [if_pos h1] at he
      exact ih e he
    · rw [if_neg h1] at he
      by_cases h2 : propHas newProps kv.1
      · rw [if_pos h2] at he
        exact ih e he
      · rw [if_neg h2] at he
        cases node with
        | none => simp at he
        | some el =>
          simp only [] at he
          rcases List.mem_cons.mp he with rfl | he
          · by_cases h3 : kv.1.startsWith "on"
            · simp [h3, CoreEv.isDom]
            · by_cases h4 : elemHasProp kv.1 <;> simp [h3, h4, CoreEv.isDom]
          · exact ih e he

lemma setNewPropsGo_dom (node : Option Nat) (oldProps : List (String × PropVal)) :
    ∀ sub, ∀ e ∈ (setNewPropsGo node oldProps sub).1, e.isDom = true := by
  intro sub
  induction sub with
  | nil => intro e he; cases he
  | cons kv rest ih =>
    intro e he
    unfold setNewPropsGo at he
    by_cases h1 : kv.1 == "children"
    · rw [if_pos h1] at he
      exact ih e he
    · rw [if_neg h1] at he
      by_cases h2 : propGet oldProps kv.1 == some kv.2
      · rw [if_pos h2] at he
        exact ih e he
      · rw [if_neg h2] at he
        cases node with
        | none => simp at he
        | some el =>
          simp only [] at he
          rcases List.mem_append.mp he with he | he
          · by_cases h3 : kv.1.startsWith "on"
            · simp only [h3, if_pos] at he
              rcases List.mem_append.mp he with he | he
              · cases hv : propGet oldProps kv.1 with
                | none => rw [hv] at he; simp at he
                | some pv =>
                  simp only [hv] at he
                  by_cases ht : pv.truthy
                  · rw [if_pos ht] at he
                    rcases List.mem_singleton.mp he with rfl
                    rfl
                  · rw [if_neg ht] at he
                    simp at he
              · rcases List.mem_singleton.mp he with rfl
                rfl
            · by_cases h4 : elemHasProp kv.1
              · simp only [h3, Bool.false_eq_true, if_neg, not_false_iff, h4, if_pos] at he
                rcases List.mem_singleton.mp he with rfl
                rfl
              · simp only [h3, h4, Bool.false_eq_true, if_neg, not_false_iff] at he
                rcases List.mem_singleton.mp he with rfl
                rfl
          · exact ih e he

lemma updatePropsC_dom (node : Option Nat) (oldProps newProps : List (String × PropVal)) :
    ∀ e ∈ (updatePropsC node oldProps newProps).1, e.isDom = true := by
  intro e he
  simp only [updatePropsC] at he
  cases hr : (removeOldPropsGo node newProps oldProps).2 with
  | some err =>
    simp only [hr] at he
    exact removeOldPropsGo_dom node newProps oldProps e he
  | none =>
    simp only [hr] at he
    rcases List.mem_append.mp he with he | he
    · exact removeOldPropsGo_dom node newProps oldProps e he
    · exact setNewPropsGo_dom node oldProps newProps e he

lemma removeOldPropsGo_self (node : Option Nat) (ps : List (String × PropVal)) :
    ∀ sub, (∀ kv ∈ sub, propHas ps kv.1 = true) → removeOldPropsGo node ps sub = ([], none) := by
  intro sub
  induction sub with
  | nil => intro h; rfl
  | cons kv rest ih =>
    intro h
    unfold removeOldPropsGo
    by_cases h1 : kv.1 == "children"
    · rw [if_pos h1]
      exact ih (fun x hx => h x (List.mem_cons_of_mem kv hx))
    · rw [if_neg h1, if_pos (h kv (by simp))]
      exact ih (fun x hx => h x (List.mem_cons_of_mem kv hx))

lemma setNewPropsGo_self (node : Option Nat) (ps : List (String × PropVal))
    (hnd : (ps.map Prod.fst).Nodup) :
    ∀ sub, (∀ kv ∈ sub, kv ∈ ps) → setNewPropsGo node ps sub = ([], none) := by
  intro sub
  induction sub with
  | nil => intro h; rfl
  | cons kv rest ih =>
    intro h
    unfold setNewPropsGo
    by_cases h1 : kv.1 == "children"
    · rw [if_pos h1]
      exact ih (fun x hx => h x (List.mem_cons_of_mem kv hx))
    · rw [if_neg h1]
      have : (propGet ps kv.1 == some kv.2) = true := by
        rw [MJS.propGet_self hnd kv (h kv (by simp))]
        simp
      rw [if_pos this]
      exact ih (fun x hx => h x (List.mem_cons_of_mem kv hx))

lemma updatePropsC_self (node : Option Nat) (ps : List (String × PropVal))
    (hnd : (ps.map Prod.fst).Nodup) : updatePropsC node ps ps = ([], none) := by
  unfold updatePropsC
  rw [removeOldPropsGo_self node ps ps (fun kv hk => by
    unfold propHas
    exact List.any_eq_true.mpr ⟨kv, hk, by simp⟩)]
  simp only []
  rw [setNewPropsGo_self node ps hnd ps (fun kv hk => hk)]
  rfl

/-! ### Events of mounting and diffing -/

/-- `st2`'s event log extends `st`'s by DOM mutations only. -/
def domOnlyFrom (st st2 : CoreState) : Prop :=
  ∃ evs, st2.events = st.events ++ evs ∧ ∀ e ∈ evs, CoreEv.isDom e = true

lemma domOnlyFrom_refl (st : CoreState) : domOnlyFrom st st := ⟨[], by simp, by simp⟩

lemma domOnlyFrom_trans {s1 s2 s3 : CoreState} (h1 : domOnlyFrom s1 s2)
    (h2 : domOnlyFrom s2 s3) : domOnlyFrom s1 s3 := by
  obtain ⟨e1, he1, hd1⟩ := h1
  obtain ⟨e2, he2, hd2⟩ := h2
  refine ⟨e1 ++ e2, ?_, ?_⟩
  · rw [he2, he1, List.append_assoc]
  · intro e he
    rcases List.mem_append.mp he with he | he
    · exact hd1 e he
    · exact hd2 e he

/-- Which jobs can only produce DOM events: mounting or diffing trees with
no component nodes (a `render` job runs a body and is excluded). -/
def jobOK : CoreJob → Bool
  | .mount v => noComp v
  | .mountChildren _ cs => noCompList cs
  | .render _ _ => false
  | .diffJob _ n _ _ =>
    match n with
    | some nv => noComp nv
    | none => true
  | .diffKids _ nc _ _ => noCompList nc

/-! Branch equations of `coreStep`, each definitional (`rfl`): these are the
arms of the definition, restated so proofs can rewrite one step at a time. -/

lemma coreStep_zero (env : CompEnv) (job : CoreJob) (st : CoreState) :
    coreStep env 0 job st = (none, st, some "fuel exhausted") := rfl

lemma coreStep_mount_str (env : CompEnv) (fuel : Nat) (s : String) (st : CoreState) :
    coreStep env (fuel + 1) (.mount (.str s)) st =
      (some st.fresh,
        { st with fresh := st.fresh + 1, events := st.events ++ [CoreEv.createNode st.fresh] },
        none) := rfl

lemma coreStep_mount_num (env : CompEnv) (fuel : Nat) (n : Int) (st : CoreState) :
    coreStep env (fuel + 1) (.mount (.num n)) st =
      (some st.fresh,
        { st with fresh := st.fresh + 1, events := st.events ++ [CoreEv.createNode st.fresh] },
        none) := rfl

lemma coreStep_mount_comp (env : CompEnv) (fuel : Nat) (f : Nat)
    (props : List (String × PropVal)) (cs : List CVNode) (k : Option String) (st : CoreState) :
    coreStep env (fuel + 1) (.mount (.node (.comp f) props cs k)) st =
      coreStep env fuel (.render f props) st := rfl

lemma coreStep_mount_tag (env : CompEnv) (fuel : Nat) (tg : String)
    (props : List (String × PropVal)) (children : List CVNode) (k : Option String)
    (st : CoreState) :
    coreStep env (fuel + 1) (.mount (.node (.tag tg) props children k)) st =
      (let st1 := { st with fresh := st.fresh + 1,
                            events := st.events ++ [CoreEv.createNode st.fresh],
                            dom := domSetChildren st.dom st.fresh [] }
       let up := updatePropsC (some st.fresh) [] props
       let st2 := { st1 with events := st1.events ++ up.1 }
       match up.2 with
       | some e => (none, st2, some e)
       | none =>
         let res := coreStep env fuel (.mountChildren st.fresh children) st2
         match res.2.2 with
         | some e => (none, res.2.1, some e)
         | none => (some st.fresh, res.2.1, none)) := rfl

lemma coreStep_mountChildren_nil (env : CompEnv) (fuel : Nat) (p : Nat) (st : CoreState) :
    coreStep env (fuel + 1) (.mountChildren p []) st = (none, st, none) := rfl

lemma coreStep_mountChildren_cons (env : CompEnv) (fuel : Nat) (p : Nat) (c : CVNode)
    (rest : List CVNode) (st : CoreState) :
    coreStep env (fuel + 1) (.mountChildren p (c :: rest)) st =
      (let res := coreStep env fuel (.mount c) st
       match res.2.2 with
       | some e => (none, res.2.1, some e)
       | none =>
         let st2 :=
           match res.1 with
           | some cid =>
             { res.2.1 with events := res.2.1.events ++ [CoreEv.domAppend p cid],
                            dom := domAppendChild res.2.1.dom p cid }
           | none => res.2.1
         coreStep env fuel (.mountChildren p rest) st2) := rfl

lemma coreStep_render (env : CompEnv) (fuel : Nat) (f : Nat)
    (props : List (String × PropVal)) (st : CoreState) :
    coreStep env (fuel + 1) (.render f props) st =
      (let prevC := st.currentComponent
       let prevH := st.hookIndex
       let st1 := { st with currentComponent := some f, hookIndex := 0 }
       let st2 :=
         match lookupComp st1 f with
         | some _ => st1
         | none => setComp st1 f { element := none, oldVNode := none, props := props, hooks := [] }
       let run := runBody env (env f).body st2
       match run.2 with
       | some e => (none, run.1, some e)
       | none =>
         let st3 := run.1
         match lookupComp st3 f with
         | none => (none, st3, some "unreachable: record was just created")
         | some cd =>
           let rendered := (env f).view cd.hooks
           if cd.element.isSome then
             (cd.element, { st3 with currentComponent := prevC, hookIndex := prevH }, none)
           else
             let res := coreStep env fuel (.mount rendered) st3
             match res.2.2 with
             | some e => (none, res.2.1, some e)
             | none =>
               let st4 := res.2.1
               match lookupComp st4 f with
               | none => (none, st4, some "unreachable: record was just created")
               | some cd2 =>
                 let st5 := setComp st4 f { cd2 with element := res.1, oldVNode := some rendered }
                 (res.1, { st5 with currentComponent := prevC, hookIndex := prevH }, none)) := rfl

lemma coreStep_diffJob (env : CompEnv) (fuel : Nat) (o n : Option CVNode)
    (container : Option Nat) (index : Nat) (st : CoreState) :
    coreStep env (fuel + 1) (.diffJob o n container index) st =
      (if falsy n ∧ ¬ falsy o then
        match container with
        | none => (none, st, some "TypeError: cannot read removeChild of undefined")
        | some cont =>
          match (domGet st.dom cont)[index]? with
          | none => (none, st, some "TypeError: removeChild of undefined")
          | some _ =>
            (none, { st with events := st.events ++ [CoreEv.domRemove cont index],
                             dom := domSetChildren st.dom cont
                               ((domGet st.dom cont).eraseIdx index) }, none)
      else if ¬ falsy n ∧ falsy o then
        match container with
        | none => (none, st, some "TypeError: cannot read appendChild of undefined")
        | some cont =>
          match n with
          | none => (none, st, some "unreachable: truthy implies present")
          | some nv =>
            let res := coreStep env fuel (.mount nv) st
            match res.2.2 with
            | some e => (none, res.2.1, some e)
            | none =>
              match res.1 with
              | none => (none, res.2.1, none)
              | some id =>
                (none, { res.2.1 with events := res.2.1.events ++ [CoreEv.domAppend cont id],
                                      dom := domAppendChild res.2.1.dom cont id }, none)
      else
        match o, n with
        | none, _ => (none, st, some "TypeError: cannot read type of undefined")
        | some _, none => (none, st, some "TypeError: cannot read type of undefined")
        | some ov, some nv =>
          if ctype ov ≠ ctype nv then
            match container with
            | none => (none, st, some "TypeError: cannot read replaceChild of undefined")
            | some cont =>
              let res := coreStep env fuel (.mount nv) st
              match res.2.2 with
              | some e => (none, res.2.1, some e)
              | none =>
                match res.1, (domGet res.2.1.dom cont)[index]? with
                | some id, some old =>
                  (none, { res.2.1 with
                            events := res.2.1.events ++ [CoreEv.domReplace cont index id],
                            dom := domReplaceChild res.2.1.dom cont old id }, none)
                | _, _ => (none, res.2.1, some "TypeError: replaceChild of undefined")
          else if isPrim nv then
            if primEq ov nv then (none, st, none)
            else
              match container with
              | none => (none, st, some "TypeError: cannot read childNodes of undefined")
              | some cont =>
                match (domGet st.dom cont)[index]? with
                | none => (none, st, some "TypeError: cannot set textContent of undefined")
                | some _ =>
                  (none, { st with
                            events := st.events ++ [CoreEv.domSetText cont index (textOf nv)] },
                    none)
          else
            match container with
            | none => (none, st, some "TypeError: cannot read childNodes of undefined")
            | some cont =>
              let nodeOpt := (domGet st.dom cont)[index]?
              let up := updatePropsC nodeOpt ov.props nv.props
              let st2 := { st with events := st.events ++ up.1 }
              match up.2 with
              | some e => (none, st2, some e)
              | none => coreStep env fuel (.diffKids ov.children nv.children nodeOpt 0) st2) := rfl

lemma coreStep_diffKids (env : CompEnv) (fuel : Nat) (ocs ncs : List CVNode)
    (container : Option Nat) (i : Nat) (st : CoreState) :
    coreStep env (fuel + 1) (.diffKids ocs ncs container i) st =
      (if i < max ocs.length ncs.length then
        let res := coreStep env fuel (.diffJob ocs[i]? ncs[i]? container i) st
        match res.2.2 with
        | some e => (none, res.2.1, some e)
        | none => coreStep env fuel (.diffKids ocs ncs container (i + 1)) res.2.1
      else (none, st, none)) := rfl

lemma coreStep_domOnly (env : CompEnv) : ∀ (fuel : Nat) (job : CoreJob) (st : CoreState),
    jobOK job = true → domOnlyFrom st (coreStep env fuel job st).2.1 := by
  intro fuel
  induction fuel with
  | zero =>
    intro job st _
    rw [coreStep_zero]
    exact domOnlyFrom_refl st
  | succ fuel ih =>
    intro job st hok
    cases job with
    | render f props => simp [jobOK] at hok
    | mount v =>
      cases v with
      | str s =>
        rw [coreStep_mount_str]
        exact ⟨[.createNode st.fresh], rfl, by simp [CoreEv.isDom]⟩
      | num n =>
        rw [coreStep_mount_num]
        exact ⟨[.createNode st.fresh], rfl, by simp [CoreEv.isDom]⟩
      | node t props children key =>
        cases t with
        | comp f =>
          rw [show jobOK (.mount (.node (.comp f) props children key)) = false from rfl] at hok
          cases hok
        | tag tg =>
          rw [coreStep_mount_tag]
          simp only []
          have hkids : noCompList children = true := by
            rw [show jobOK (.mount (.node (.tag tg) props children key))
                  = noCompList children from rfl] at hok
            exact hok
          have hstep1 : domOnlyFrom st
              { st with fresh := st.fresh + 1,
                        events := (st.events ++ [CoreEv.createNode st.fresh]) ++
                          (updatePropsC (some st.fresh) [] props).1,
                        dom := domSetChildren st.dom st.fresh [] } := by
            refine ⟨[CoreEv.createNode st.fresh] ++ (updatePropsC (some st.fresh) [] props).1,
              by simp, ?_⟩
            intro e he
            rcases List.mem_append.mp he with he | he
            · rcases List.mem_singleton.mp he with rfl
              rfl
            · exact updatePropsC_dom _ _ _ e he
          cases hup : (updatePropsC (some st.fresh) [] props).2 with
          | some e =>
            exact hstep1
          | none =>
            have hcomb := domOnlyFrom_trans hstep1
              (ih (.mountChildren st.fresh children) _
                (show jobOK (.mountChildren st.fresh children) = true from hkids))
            cases hres : (coreStep env fuel (.mountChildren st.fresh children)
                { st with fresh := st.fresh + 1,
                          events := (st.events ++ [CoreEv.createNode st.fresh]) ++
                            (updatePropsC (some st.fresh) [] props).1,
                          dom := domSetChildren st.dom st.fresh [] }).2.2 with
            | some e2 => exact hcomb
            | none => exact hcomb
    | mountChildren p cs =>
      cases cs with
      | nil =>
        rw [coreStep_mountChildren_nil]
        exact domOnlyFrom_refl st
      | cons c rest =>
        rw [coreStep_mountChildren_cons]
        simp only []
        have hokl : noCompList (c :: rest) = true := hok
        have hc : noComp c = true := noCompList_mem (by simp) hokl
        have hrest : noCompList rest = true := by
          unfold noCompList at hokl
          rw [Bool.and_eq_true] at hokl
          exact hokl.2
        have h1 := ih (.mount c) st (show jobOK (.mount c) = true from hc)
        cases hres : (coreStep env fuel (.mount c) st).2.2 with
        | some e =>
          exact h1
        | none =>
          cases hid : (coreStep env fuel (.mount c) st).1 with
          | none =>
            exact domOnlyFrom_trans h1
              (ih (.mountChildren p rest) _ (show jobOK (.mountChildren p rest) = true from hrest))
          | some cid =>
            have hmid : domOnlyFrom (coreStep env fuel (.mount c) st).2.1
                { (coreStep env fuel (.mount c) st).2.1 with
                  events := (coreStep env fuel (.mount c) st).2.1.events ++
                    [CoreEv.domAppend p cid],
                  dom := domAppendChild (coreStep env fuel (.mount c) st).2.1.dom p cid } :=
              ⟨[CoreEv.domAppend p cid], rfl, by simp [CoreEv.isDom]⟩
            exact domOnlyFrom_trans h1 (domOnlyFrom_trans hmid
              (ih (.mountChildren p rest) _
                (show jobOK (.mountChildren p rest) = true from hrest)))
    | diffKids ocs ncs container i =>
      rw [coreStep_diffKids]
      by_cases hi : i < max ocs.length ncs.length
      · rw [if_pos hi]
        simp only []
        have hjob : jobOK (.diffJob ocs[i]? ncs[i]? container i) = true := by
          cases hn : ncs[i]? with
          | none => rfl
          | some nv =>
            have hmem : nv ∈ ncs := by
              rcases List.getElem?_eq_some_iff.mp hn with ⟨hlt, hEq⟩
              rw [← hEq]
              exact List.getElem_mem _
            exact noCompList_mem hmem hok
        have h1 := ih (.diffJob ocs[i]? ncs[i]? container i) st hjob
        cases hres : (coreStep env fuel (.diffJob ocs[i]? ncs[i]? container i) st).2.2 with
        | some e =>
          exact h1
        | none =>
          exact domOnlyFrom_trans h1 (ih (.diffKids ocs ncs container (i + 1)) _ hok)
      · rw [if_neg hi]
        exact domOnlyFrom_refl st
    | diffJob o n container index =>
      rw [coreStep_diffJob]
      by_cases hc1 : falsy n = true ∧ ¬ falsy o = true
      · rw [if_pos hc1]
        cases container with
        | none => exact domOnlyFrom_refl st
        | some cont =>
          simp only []
          cases hg : (domGet st.dom cont)[index]? with
          | none =>
            exact domOnlyFrom_refl st
          | some x =>
            exact ⟨[CoreEv.domRemove cont index], rfl, by simp [CoreEv.isDom]⟩
      · rw [if_neg hc1]
        by_cases hc2 : ¬ falsy n = true ∧ falsy o = true
        · rw [if_pos hc2]
          cases container with
          | none => exact domOnlyFrom_refl st
          | some cont =>
            cases n with
            | none => exact domOnlyFrom_refl st
            | some nv =>
              simp only []
              have h1 := ih (.mount nv) st (show jobOK (.mount nv) = true from hok)
              cases hres : (coreStep env fuel (.mount nv) st).2.2 with
              | some e =>
                exact h1
              | none =>
                cases hid : (coreStep env fuel (.mount nv) st).1 with
                | none =>
                  exact h1
                | some id =>
                  exact domOnlyFrom_trans h1
                    ⟨[CoreEv.domAppend cont id], rfl, by simp [CoreEv.isDom]⟩
        · rw [if_neg hc2]
          cases o with
          | none => exact domOnlyFrom_refl st
          | some ov =>
            cases n with
            | none => exact domOnlyFrom_refl st
            | some nv =>
              simp only []
              by_cases hty : ctype ov ≠ ctype nv
              · rw [if_pos hty]
                cases container with
                | none => exact domOnlyFrom_refl st
                | some cont =>
                  simp only []
                  have h1 := ih (.mount nv) st (show jobOK (.mount nv) = true from hok)
                  cases hres : (coreStep env fuel (.mount nv) st).2.2 with
                  | some e =>
                    exact h1
                  | none =>
                    cases hid : (coreStep env fuel (.mount nv) st).1 with
                    | none =>
                      exact h1
                    | some id =>
                      cases hold : (domGet (coreStep env fuel (.mount nv) st).2.1.dom cont)[index]? with
                      | none =>
                        exact h1
                      | some old =>
                        exact domOnlyFrom_trans h1
                          ⟨[CoreEv.domReplace cont index id], rfl, by simp [CoreEv.isDom]⟩
              · rw [if_neg hty]
                by_cases hpr : isPrim nv = true
                · rw [if_pos hpr]
                  by_cases heq : primEq ov nv = true
                  · rw [if_pos heq]
                    exact domOnlyFrom_refl st
                  · rw [if_neg heq]
                    cases container with
                    | none => exact domOnlyFrom_refl st
                    | some cont =>
                      simp only []
                      cases hg : (domGet st.dom cont)[index]? with
                      | none =>
                        exact domOnlyFrom_refl st
                      | some x =>
                        exact ⟨[CoreEv.domSetText cont index (textOf nv)], rfl,
                          by simp [CoreEv.isDom]⟩
                · rw [if_neg hpr]
                  cases container with
                  | none => exact domOnlyFrom_refl st
                  | some cont =>
                    simp only []
                    have hup : domOnlyFrom st
                        { st with events := st.events ++
                            (updatePropsC (domGet st.dom cont)[index]? ov.props nv.props).1 } :=
                      ⟨_, rfl, updatePropsC_dom _ _ _⟩
                    cases hupe : (updatePropsC (domGet st.dom cont)[index]? ov.props nv.props).2 with
                    | some e =>
                      exact hup
                    | none =>
                      refine domOnlyFrom_trans hup (ih _ _ ?_)
                      have hnc : noComp nv = true := hok
                      cases nv with
                      | str s => rfl
                      | num n2 => rfl
                      | node t ps cs k =>
                        cases t with
                        | comp f => exact absurd hnc (by simp [noComp])
                        | tag tg =>
                          rw [show jobOK (.diffKids ov.children
                                (CVNode.node (.tag tg) ps cs k).children (domGet st.dom cont)[index]? 0)
                              = noCompList cs from rfl]
                          rw [show noComp (CVNode.node (.tag tg) ps cs k)
                              = noCompList cs from rfl] at hnc
                          exact hnc

/-- Diffing a well-formed tree against itself leaves the state unchanged:
props updates are empty (`updatePropsC_self`) and every child pair is
identical. Stated for `diffJob` and `diffKids` together, by fuel
induction. -/
lemma coreStep_diff_self (env : CompEnv) : ∀ fuel : Nat,
    (∀ (u : CVNode) (container : Option Nat) (index : Nat) (st : CoreState),
      coreWF u = true →
      (coreStep env fuel (.diffJob (some u) (some u) container index) st).2.1 = st) ∧
    (∀ (cs : List CVNode) (container : Option Nat) (i : Nat) (st : CoreState),
      coreWFList cs = true →
      (coreStep env fuel (.diffKids cs cs container i) st).2.1 = st) := by
  intro fuel
  induction fuel with
  | zero =>
    constructor
    · intro u container index st _
      rw [coreStep_zero]
    · intro cs container i st _
      rw [coreStep_zero]
  | succ fuel ih =>
    obtain ⟨ihJ, ihK⟩ := ih
    constructor
    · intro u container index st hwf
      rw [coreStep_diffJob]
      rw [if_neg (fun h => h.2 h.1)]
      rw [if_neg (fun h => h.1 h.2)]
      simp only []
      cases u with
      | str s => simp [isPrim, primEq]
      | num n => simp [isPrim, primEq]
      | node t ps cs k =>
        rw [if_neg (fun h => h rfl)]
        rw [if_neg (by simp [isPrim])]
        cases container with
        | none => rfl
        | some cont =>
          have h2 := hwf
          rw [show coreWF (.node t ps cs k)
                = (decide ((ps.map Prod.fst).Nodup) && coreWFList cs) from rfl] at h2
          rw [Bool.and_eq_true] at h2
          have hnd := of_decide_eq_true h2.1
          have hwfk := h2.2
          simp only [CVNode.props, CVNode.children]
          rw [updatePropsC_self (domGet st.dom cont)[index]? ps hnd]
          simp only []
          rw [ihK cs ((domGet st.dom cont)[index]?) 0
            { st with events := st.events ++ ([] : List CoreEv) } hwfk]
          rw [List.append_nil]
    · intro cs container i st hwf
      rw [coreStep_diffKids]
      by_cases hi : i < max cs.length cs.length
      · rw [if_pos hi]
        simp only []
        have hlt : i < cs.length := by simpa using hi
        have hget : cs[i]? = some cs[i] := List.getElem?_eq_getElem hlt
        have hwfc : coreWF cs[i] = true := coreWFList_mem (List.getElem_mem _) hwf
        have h1 : (coreStep env fuel (.diffJob cs[i]? cs[i]? container i) st).2.1 = st := by
          rw [hget]
          exact ihJ cs[i] container i st hwfc
        cases hres : (coreStep env fuel (.diffJob cs[i]? cs[i]? container i) st).2.2 with
        | some e => exact h1
        | none =>
          rw [h1]
          exact ihK cs container (i + 1) st hwf
      · rw [if_neg hi]

/-! ### Frame lemmas: a body run touches hooks, events and the scheduler
fields only — never the document or the set of component records. -/

lemma scheduleRender_dom (c : Option Nat) (st : CoreState) :
    (scheduleRender c st).dom = st.dom := by
  unfold scheduleRender
  by_cases hr : st.isRendering <;> simp [hr]

lemma setStateCall_dom (owner slot : Nat) (arg : SetArg) (st : CoreState) :
    (setStateCall owner slot arg st).dom = st.dom := by
  unfold setStateCall
  cases lookupComp st owner with
  | none => rfl
  | some cd =>
    simp only []
    cases cd.hooks[slot]? with
    | none => rfl
    | some hk =>
      cases hk with
      | heffect d c => rfl
      | hstate cur =>
        simp only []
        by_cases hv : cur = (match arg with | .val v => v | .updater f => f cur)
        · rw [if_pos hv]
        · rw [if_neg hv]
          rw [scheduleRender_dom]
          exact (setComp_fields st owner _).2.2.2.2.2.2.2

/-- A component body run never mutates the document. -/
lemma runBody_dom (env : CompEnv) : ∀ (ops : List BodyOp) (st : CoreState),
    (runBody env ops st).1.dom = st.dom := by
  intro ops
  induction ops with
  | nil => intro st; rfl
  | cons op rest ih =>
    intro st
    cases op with
    | bthrow msg => rfl
    | bset owner slot arg =>
      rw [show runBody env (.bset owner slot arg :: rest) st
            = runBody env rest (setStateCall owner slot arg st) from rfl]
      rw [ih, setStateCall_dom]
    | bstate initial =>
      simp only [runBody]
      cases st.currentComponent with
      | none => rfl
      | some cid =>
        simp only []
        cases lookupComp st cid with
        | none => rfl
        | some cd =>
          simp only []
          rw [ih]
          exact (setComp_fields _ _ _).2.2.2.2.2.2.2
    | beffect effId deps hc =>
      simp only [runBody]
      cases st.currentComponent with
      | none => rfl
      | some cid =>
        simp only []
        cases lookupComp st cid with
        | none => rfl
        | some cd =>
          simp only []
          rw [ih]
          exact (setComp_fields _ _ _).2.2.2.2.2.2.2

lemma mapFst_setList (l : List (Nat × CompData)) (c : Nat) (cd : CompData) :
    (l.map (fun e => if e.1 == c then (c, cd) else e)).map Prod.fst = l.map Prod.fst := by
  induction l with
  | nil => rfl
  | cons e rest ih =>
    simp only [List.map_cons]
    by_cases he : e.1 = c
    · have h1 : (e.1 == c) = true := by simp [he]
      simp only [h1, if_pos]
      rw [he, ih]
    · have h1 : (e.1 == c) = false := by simp [he]
      simp only [h1, Bool.false_eq_true, if_neg, not_false_iff, ih]

/-- Overwriting an existing record never adds a key to the map. -/
lemma setComp_keys (st : CoreState) (c : Nat) (cd0 cd : CompData)
    (h : lookupComp st c = some cd0) :
    (setComp st c cd).components.map Prod.fst = st.components.map Prod.fst := by
  by_cases hany : st.components.any (fun e => e.1 == c) = true
  · unfold setComp
    rw [if_pos hany]
    exact mapFst_setList _ _ _
  · exfalso
    have hnone : st.components.find? (fun e => e.1 == c) = none := by
      rw [List.find?_eq_none]
      intro x hx
      cases hbeq : (x.1 == c) with
      | false => exact Bool.false_ne_true
      | true => exact absurd (List.any_eq_true.mpr ⟨x, hx, hbeq⟩) hany
    unfold lookupComp at h
    rw [hnone] at h
    cases h

lemma setStateCall_keys (owner slot : Nat) (arg : SetArg) (st : CoreState) :
    (setStateCall owner slot arg st).components.map Prod.fst
      = st.components.map Prod.fst := by
  unfold setStateCall
  cases hcd : lookupComp st owner with
  | none => rfl
  | some cd =>
    simp only []
    cases cd.hooks[slot]? with
    | none => rfl
    | some hk =>
      cases hk with
      | heffect d c => rfl
      | hstate cur =>
        simp only []
        by_cases hv : cur = (match arg with | .val v => v | .updater f => f cur)
        · rw [if_pos hv]
        · rw [if_neg hv]
          rw [(scheduleRender_events _ _).2]
          exact setComp_keys st owner cd _ hcd

/-- A body run never creates or deletes a component record. -/
lemma runBody_keys (env : CompEnv) : ∀ (ops : List BodyOp) (st : CoreState),
    (runBody env ops st).1.components.map Prod.fst = st.components.map Prod.fst := by
  intro ops
  induction ops with
  | nil => intro st; rfl
  | cons op rest ih =>
    intro st
    cases op with
    | bthrow msg => rfl
    | bset owner slot arg =>
      rw [show runBody env (.bset owner slot arg :: rest) st
            = runBody env rest (setStateCall owner slot arg st) from rfl]
      rw [ih, setStateCall_keys]
    | bstate initial =>
      simp only [runBody]
      cases st.currentComponent with
      | none => rfl
      | some cid =>
        simp only []
        cases hcd : lookupComp st cid with
        | none => rfl
        | some cd =>
          simp only []
          rw [ih]
          exact setComp_keys _ cid cd _ hcd
    | beffect effId deps hc =>
      simp only [runBody]
      cases st.currentComponent with
      | none => rfl
      | some cid =>
        simp only []
        cases hcd : lookupComp st cid with
        | none => rfl
        | some cd =>
          simp only []
          rw [ih]
          exact setComp_keys _ cid cd _ hcd

/-! ### The dependency comparison, characterized -/

lemma zip_self_no_diff (l : List Val) :
    (l.zip l).any (fun ab => ab.1 != ab.2) = false := by
  induction l with
  | nil => rfl
  | cons x rest ih => simp [ih]

lemma eq_of_zip_eq (cd pd : List Val) (hl : cd.length = pd.length)
    (h : ∀ ab ∈ cd.zip pd, ab.1 = ab.2) : cd = pd := by
  induction cd generalizing pd with
  | nil =>
    cases pd with
    | nil => rfl
    | cons y ys => cases hl
  | cons x xs ih =>
    cases pd with
    | nil => cases hl
    | cons y ys =>
      have hx : x = y := h (x, y) (by simp)
      have hrest : xs = ys := ih ys (by simpa using hl) (fun ab hab => h ab (by simp [hab]))
      rw [hx, hrest]

/-- With stored and current dependency arrays both present, the effect
re-runs exactly when the arrays differ (length mismatch counts as
changed). -/
lemma depsChanged_some_iff (pd cd : List Val) :
    depsChanged (some pd) (some cd) = true ↔ cd ≠ pd := by
  rw [show depsChanged (some pd) (some cd)
        = (cd.length != pd.length || (cd.zip pd).any (fun ab => ab.1 != ab.2)) from rfl]
  constructor
  · intro h hcd
    subst hcd
    rw [bne_self_eq_false, zip_self_no_diff] at h
    cases h
  · intro hne
    rw [Bool.or_eq_true]
    by_cases hl : cd.length = pd.length
    · right
      by_contra hany
      rw [Bool.not_eq_true] at hany
      refine hne (eq_of_zip_eq cd pd hl ?_)
      intro ab hab
      have := List.any_eq_false.mp hany ab hab
      simpa using this
    · left
      simpa using hl

end Core

namespace MJS

/-- What the body call of `ComponentWrapper` (src/minima.js 604-638) can
produce: a template string, or a value of another type. -/
inductive TemplateVal : Type where
  | str (s : String)
  | nonString

/-- The boundary of `ComponentWrapper` around `boundComponent(props)`
(src/minima.js 625-635): a thrown error is caught, reported and replaced by
the bracketed error text VNode; a non-string template throws; a string
template proceeds to `parseTemplate`. -/
def componentWrapper (componentName : String) (run : Except String TemplateVal)
    (parse : String → MVNode) : Except String MVNode :=
  match run with
  | .error _ => .ok (createTextVNode ("[Component Error: " ++ componentName ++ "]"))
  | .ok (.str template) => .ok (parse template)
  | .ok .nonString =>
    .error ("MinimaJS Component: Component " ++ componentName
      ++ " must return a string template")

/-! ### Concrete children lists for the keyed-reconciliation claims -/

/-- Mounted keyed list items A, B, C (keys 1, 2, 3; DOM nodes 1, 2, 3). -/
def nA : MVNode := .mk .element (some "li") [] [] (some "1") (some 1) ""

def nB : MVNode := .mk .element (some "li") [] [] (some "2") (some 2) ""

def nC : MVNode := .mk .element (some "li") [] [] (some "3") (some 3) ""

/-- Document for the rotation: container 0 holds the three items in order. -/
def st4 : MSt := ⟨[], 10, [(0, [1, 2, 3])]⟩

/-- A mounted keyed child and a mounted non-keyed sibling. -/
def k1 : MVNode := .mk .element (some "li") [] [] (some "k") (some 11) ""

def u1 : MVNode := .mk .element (some "span") [] [] none (some 12) ""

/-- A mounted list mixing one keyed and one non-keyed child. -/
def tMix : MVNode := .mk .element (some "ul") [] [k1, u1] none (some 10) ""

def stMix : MSt := ⟨[], 20, [(0, [10]), (10, [11, 12])]⟩

/-- A well-keyed (here: key-free) mounted tree for the idempotence witness. -/
def tW : MVNode :=
  .mk .element (some "div") [("className", .str "a")]
    [.mk .text none [] [] none (some 31) "t"] none (some 30) ""

def stW : MSt := ⟨[], 40, [(0, [30]), (30, [31])]⟩

/-- Two siblings carrying the same key "k" (DOM nodes 1 and 2). -/
def a8 : MVNode := .mk .element (some "li") [] [] (some "k") (some 1) ""

def b8 : MVNode := .mk .element (some "li") [] [] (some "k") (some 2) ""

def st8 : MSt := ⟨[], 30, [(0, [1, 2])]⟩


/-! ### One-step unfolding equations of the keyed reconciler

Each lemma advances one call of the `mutual` block (whose equations are not
definitional) by a single step, the sub-results and reshaped arguments being
supplied as equalities; concrete runs below chain them with `rfl`-proved
side conditions, keeping every state literal. -/

lemma diffChildrenM_keys_succ (fuel : Nat) (olds news : List MVNode) (parent : Option Nat)
    (st : MSt) (nolds nnews : List MVNode)
    (hno : olds.map normalizeChild = nolds) (hnn : news.map normalizeChild = nnews)
    (hkeys : nnews.any (fun c => c.key.isSome) = true) :
    diffChildrenM (fuel + 1) olds news parent st =
      diffChildrenWithKeysM fuel nolds nnews parent st := by
  simp only [diffChildrenM]
  rw [hno, hnn, hkeys]
  rw [if_pos rfl]

lemma diffChildrenWithKeysM_succ (fuel : Nat) (olds news : List MVNode) (parent : Option Nat)
    (st : MSt) (r : MSt × List Nat × List POp × List MVNode)
    (st1 : MSt) (m : List Nat) (ops : List POp) (out : List MVNode)
    (hfp : firstPassGo fuel (buildKeyMap olds) 0 news parent st [] [] [] = r)
    (hst1 : r.1 = st1) (hm : r.2.1 = m) (hops : r.2.2.1 = ops) (hout : r.2.2.2 = out) :
    diffChildrenWithKeysM (fuel + 1) olds news parent st =
      (out, thirdPassGo fuel ops olds parent (secondPassGo parent 0 olds m st1)) := by
  obtain ⟨a, b, c, d⟩ := r
  cases hst1
  cases hm
  cases hops
  cases hout
  simp only [diffChildrenWithKeysM]
  rw [hfp]

lemma firstPassGo_nil_eq (fuel : Nat) (km : KeyMap) (i : Nat) (parent : Option Nat)
    (st : MSt) (m : List Nat) (q : List POp) (o : List MVNode) :
    firstPassGo (fuel + 1) km i [] parent st m q o = (st, m, q, o) := by
  simp [firstPassGo]

lemma firstPassGo_unkeyed_step (fuel : Nat) (km : KeyMap) (i : Nat) (c : MVNode)
    (rest : List MVNode) (parent : Option Nat) (st : MSt) (m : List Nat) (q : List POp)
    (o : List MVNode) (i2 : Nat) (q2 : List POp) (o2 : List MVNode)
    (hk : c.key = none) (hi2 : i + 1 = i2) (hq2 : q ++ [.update c i] = q2)
    (ho2 : o ++ [c] = o2) :
    firstPassGo (fuel + 1) km i (c :: rest) parent st m q o =
      firstPassGo (fuel + 1) km i2 rest parent st m q2 o2 := by
  cases hi2
  cases hq2
  cases ho2
  simp only [firstPassGo]
  rw [hk]

lemma firstPassGo_keyed_nomove_step (fuel : Nat) (km : KeyMap) (i : Nat) (c : MVNode)
    (rest : List MVNode) (p : Nat) (st : MSt) (m : List Nat) (q : List POp)
    (o : List MVNode) (k : String) (oc : MVNode) (oi : Nat) (res : Option MVNode)
    (st2 : MSt) (d : Nat) (i2 : Nat) (m2 : List Nat) (o2 : List MVNode)
    (hk : c.key = some k) (hget : mapGet km k = some (oc, oi))
    (hrd : (match res with | some r => r.dom | none => none) = some d)
    (hd : mdiff fuel (some oc) (some c) (some p) st = (res, st2))
    (hno : ¬ (oi ≠ i ∧ (domGet st2.dom p)[i]? ≠ some d))
    (hi2 : i + 1 = i2) (hm2 : m ++ [oi] = m2) (ho2 : o ++ res.toList = o2) :
    firstPassGo (fuel + 1) km i (c :: rest) (some p) st m q o =
      firstPassGo (fuel + 1) km i2 rest (some p) st2 m2 q o2 := by
  cases hi2
  cases hm2
  cases ho2
  simp only [firstPassGo]
  rw [hk]
  simp only []
  rw [hget]
  simp only []
  rw [hd]
  simp only []
  rw [hrd]
  simp only []
  rw [if_neg hno]

lemma firstPassGo_keyed_move_step (fuel : Nat) (km : KeyMap) (i : Nat) (c : MVNode)
    (rest : List MVNode) (p : Nat) (st : MSt) (m : List Nat) (q : List POp)
    (o : List MVNode) (k : String) (oc : MVNode) (oi : Nat) (res : Option MVNode)
    (st2 : MSt) (d : Nat) (ref : Option Nat) (st3 : MSt) (i2 : Nat) (m2 : List Nat)
    (o2 : List MVNode)
    (hk : c.key = some k) (hget : mapGet km k = some (oc, oi))
    (hrd : (match res with | some r => r.dom | none => none) = some d)
    (hd : mdiff fuel (some oc) (some c) (some p) st = (res, st2))
    (hyes : oi ≠ i ∧ (domGet st2.dom p)[i]? ≠ some d)
    (href : (domGet st2.dom p)[i]? = ref)
    (hst3 : { st2 with ops := st2.ops ++ [.insertNodeBefore p d ref],
                       dom := domInsertBefore st2.dom p d ref } = st3)
    (hi2 : i + 1 = i2) (hm2 : m ++ [oi] = m2) (ho2 : o ++ res.toList = o2) :
    firstPassGo (fuel + 1) km i (c :: rest) (some p) st m q o =
      firstPassGo (fuel + 1) km i2 rest (some p) st3 m2 q o2 := by
  cases hi2
  cases hm2
  cases ho2
  cases hst3
  simp only [firstPassGo]
  rw [hk]
  simp only []
  rw [hget]
  simp only []
  rw [hd]
  simp only []
  rw [hrd]
  simp only []
  rw [if_pos hyes]
  rw [href]

lemma thirdPassGo_nil_eq (fuel : Nat) (olds : List MVNode) (parent : Option Nat) (st : MSt) :
    thirdPassGo (fuel + 1) [] olds parent st = st := by
  simp [thirdPassGo]

lemma thirdPassGo_update_step (fuel : Nat) (c : MVNode) (i : Nat) (rest : List POp)
    (olds : List MVNode) (parent : Option Nat) (st : MSt) (res : Option MVNode) (st2 : MSt)
    (hd : mdiff fuel olds[i]? (some c) parent st = (res, st2)) :
    thirdPassGo (fuel + 1) (.update c i :: rest) olds parent st =
      thirdPassGo (fuel + 1) rest olds parent st2 := by
  simp only [thirdPassGo]
  rw [hd]

lemma mdiff_element_self_step (fuel : Nat) (t : MVNode) (parent : Option Nat) (st st2 : MSt)
    (cs : List MVNode) (dOpt : Option Nat)
    (hty : t.ty = .element) (hcs : t.children = cs) (hdom : t.dom = dOpt)
    (hst2 : (match t.dom with
             | some d => { st with ops := st.ops ++ updateElement d t.props t.props }
             | none => st) = st2) :
    mdiff (fuel + 1) (some t) (some t) parent st =
      (some t, (diffChildrenM fuel cs cs dOpt st2).2) := by
  cases hcs
  cases hdom
  cases hst2
  simp only [mdiff]
  rw [if_neg (by simp)]
  rw [setDom_self]
  rw [hty]

end MJS

namespace Core

/-! ### Concrete components and states for the runtime claims -/

/-- An environment with trivial bodies (the scheduler claims only exercise
setters called from an event handler, outside any render). -/
def envC1 : CompEnv := fun _ => ⟨[], fun _ => .str ""⟩

/-- Component 0 mounted (element 10 inside container 0), one state cell
holding 1; idle scheduler; `currentComponent` is `null` — no render is in
progress, as in an event handler. -/
def stC1 : CoreState :=
  ⟨none, 0, [(0, ⟨some 10, some (.str "x"), [], [.hstate 1]⟩)], [], false, 0, [], 11, [(0, [10])]⟩

/-- As `stC1` with the counter at 0. -/
def stC3 : CoreState :=
  ⟨none, 0, [(0, ⟨some 10, some (.str "x"), [], [.hstate 0]⟩)], [], false, 0, [], 11, [(0, [10])]⟩

/-- Three synchronous `setter(v => v + 1)` calls from one handler. -/
def st3 : CoreState :=
  setStateCall 0 0 (.updater (· + 1)) (setStateCall 0 0 (.updater (· + 1))
    (setStateCall 0 0 (.updater (· + 1)) stC3))

/-- Component 0: one effect (id 7, no deps, no cleanup), view text "b". -/
def envC2 : CompEnv := fun _ => ⟨[.beffect 7 none false], fun _ => .str "b"⟩

/-- Component 0 mounted as text node 1 in container 0, previous tree "a",
effect cell from the mount (omitted deps stored as `null`). -/
def stC2 : CoreState :=
  ⟨none, 0, [(0, ⟨some 1, some (.str "a"), [], [.heffect none none]⟩)], [], false, 0, [],
    2, [(0, [1])]⟩

/-- Component 0 whose body throws. -/
def envC7 : CompEnv := fun _ => ⟨[.bthrow "boom"], fun _ => .str "never"⟩

/-- Component 0 mounted (text node 1 in container 0), fresh hooks. -/
def stC7 : CoreState :=
  ⟨none, 0, [(0, ⟨some 1, some (.str "a"), [], []⟩)], [], false, 0, [], 2, [(0, [1])]⟩

/-- As `stC7`, with component 0 pending in an armed flush. -/
def stQ7 : CoreState :=
  ⟨none, 0, [(0, ⟨some 1, some (.str "a"), [], []⟩)], [some 0], true, 1, [], 2, [(0, [1])]⟩

/-- The state in which the body of component 0 of `stC7` throws: render
start logged, context set, nothing else touched. -/
def stT7 : CoreState :=
  { stC7 with events := stC7.events ++ [CoreEv.renderStart (some 0)],
              currentComponent := some 0, hookIndex := 0 }

/-- Component 0 re-renders to a tree containing component 1; component 1
sets its own state (to a fresh value, hence scheduling) while rendering. -/
def envC9 : CompEnv := fun i =>
  if i = 0 then ⟨[], fun _ => .node (.comp 1) [] [] none⟩
  else ⟨[.bstate 0, .bset 1 0 (.val 7)], fun _ => .str "c"⟩

/-- Component 0 mounted and pending in a flush that is already running. -/
def stC9 : CoreState :=
  ⟨none, 0, [(0, ⟨some 1, some (.str "a"), [], []⟩)], [some 0], true, 1, [], 2, [(0, [1])]⟩

/-- One component function: a single state cell initialised to 4, view "x". -/
def envC10 : CompEnv := fun _ => ⟨[.bstate 4], fun _ => .str "x"⟩

/-- An empty document and component map. -/
def stC10 : CoreState := ⟨none, 0, [], [], false, 0, [], 20, []⟩

end Core

/-! ## The claims -/

open Core MJS

/-- C1: `setState` (lib/minima-core.js 27-34) computes the next value
(updater applied to the current value), is a no-op on identity, and
otherwise updates the cell and schedules — but it schedules
`scheduleRender(currentComponent)`, the live module variable, which is
`null` in an event handler: the queue receives `null` and the owning
instance 0 is never enqueued. The spec says the owner is enqueued; the
code enqueues whatever component happens to be rendering. -/
theorem setState_schedules_live_component_not_owner :
    (lookupComp (setStateCall 0 0 (.val 5) stC1) 0).map CompData.hooks = some [.hstate 5] ∧
    (lookupComp (setStateCall 0 0 (.updater (· + 1)) stC1) 0).map CompData.hooks
      = some [.hstate 2] ∧
    (setStateCall 0 0 (.val 5) stC1).renderQueue = [none] ∧
    (setStateCall 0 0 (.val 5) stC1).flushesArmed = 1 ∧
    some 0 ∉ (setStateCall 0 0 (.val 5) stC1).renderQueue ∧
    setStateCall 0 0 (.val 1) stC1 = stC1 := by
  refine ⟨rfl, rfl, rfl, rfl, ?_, rfl⟩
  decide

/-- C3: three synchronous `setter(v => v + 1)` calls coalesce into one
armed flush and a final cell value of 3, as the spec says — but the queued
entry is `null` (the live `currentComponent`), so the flush throws
`TypeError` reading `components.get(null).element`, re-renders nothing
(`renderStart (some 0)` never happens), and leaves `isRendering` stuck and
the queue uncleared. -/
theorem coalesced_setState_flush_crashes :
    (lookupComp st3 0).map CompData.hooks = some [.hstate 3] ∧
    st3.flushesArmed = 1 ∧
    st3.renderQueue = [none] ∧
    (flushMicrotask envC1 10 st3).2 = some "TypeError: cannot read element of undefined" ∧
    (flushMicrotask envC1 10 st3).1.isRendering = true ∧
    (flushMicrotask envC1 10 st3).1.renderQueue = [none] ∧
    (flushMicrotask envC1 10 st3).1.events = [.renderStart none] :=
  ⟨rfl, rfl, rfl, rfl, rfl, rfl, rfl⟩

set_option maxHeartbeats 1000000 in
/-- C4: keyed reconciliation of a permutation (src/minima.js 362-431)
matches every key to its old node and only moves existing DOM nodes: the
output is the new list, `fresh` is unchanged (zero nodes created) and every
operation is an `insertNodeBefore` move (zero nodes destroyed). For the
3-element rotation of the spec, exactly one move is performed. -/
theorem keyed_permutation_moves_only :
    (∀ (p F : Nat) (olds news : List MVNode) (st : MSt),
      news.Perm olds → (olds.filterMap MVNode.key).Nodup →
      (∀ c ∈ olds, c.key.isSome = true ∧ wellKeyed c = true ∧ 4 * msize c + 2 ≤ F) →
      ∃ moves dom2, diffChildrenWithKeysM F olds news (some p) st =
          (news, { ops := st.ops ++ moves, fresh := st.fresh, dom := dom2 }) ∧
        ∀ op ∈ moves, isMove op = true) ∧
    diffChildrenWithKeysM 64 [nA, nB, nC] [nC, nA, nB] (some 0) st4 =
      ([nC, nA, nB], { ops := [.insertNodeBefore 0 3 (some 1)], fresh := 10,
                       dom := [(0, [3, 1, 2])] }) := by
  constructor
  · exact fun p F olds news st h1 h2 h3 => diffChildrenWithKeysM_perm p F olds news st h1 h2 h3
  · have hfp4 : firstPassGo 63 (buildKeyMap [nA, nB, nC]) 0 [nC, nA, nB] (some 0) st4 [] [] []
        = (⟨[MOp.insertNodeBefore 0 3 (some 1)], 10, [(0, [3, 1, 2])]⟩, [2, 0, 1], [],
           [nC, nA, nB]) := by
      rw [show (63 : Nat) = 62 + 1 from rfl]
      rw [firstPassGo_keyed_move_step 62 (buildKeyMap [nA, nB, nC]) 0 nC [nA, nB] 0 st4 []
        [] [] "3" nC 2 (some nC) st4 3 (some 1)
        ⟨[MOp.insertNodeBefore 0 3 (some 1)], 10, [(0, [3, 1, 2])]⟩ 1 [2] [nC]
        rfl rfl rfl (mdiff_self 62 nC (some 0) st4 (by decide) (by decide)) (by decide)
        rfl rfl rfl rfl rfl]
      rw [firstPassGo_keyed_nomove_step 62 (buildKeyMap [nA, nB, nC]) 1 nA [nB] 0
        ⟨[MOp.insertNodeBefore 0 3 (some 1)], 10, [(0, [3, 1, 2])]⟩ [2] [] [nC] "1" nA 0
        (some nA) ⟨[MOp.insertNodeBefore 0 3 (some 1)], 10, [(0, [3, 1, 2])]⟩ 1 2 [2, 0]
        [nC, nA] rfl rfl rfl
        (mdiff_self 62 nA (some 0) ⟨[MOp.insertNodeBefore 0 3 (some 1)], 10,
          [(0, [3, 1, 2])]⟩ (by decide) (by decide)) (by decide) rfl rfl rfl]
      rw [firstPassGo_keyed_nomove_step 62 (buildKeyMap [nA, nB, nC]) 2 nB [] 0
        ⟨[MOp.insertNodeBefore 0 3 (some 1)], 10, [(0, [3, 1, 2])]⟩ [2, 0] [] [nC, nA]
        "2" nB 1 (some nB) ⟨[MOp.insertNodeBefore 0 3 (some 1)], 10, [(0, [3, 1, 2])]⟩ 2 3
        [2, 0, 1] [nC, nA, nB] rfl rfl rfl
        (mdiff_self 62 nB (some 0) ⟨[MOp.insertNodeBefore 0 3 (some 1)], 10,
          [(0, [3, 1, 2])]⟩ (by decide) (by decide)) (by decide) rfl rfl rfl]
      rw [firstPassGo_nil_eq]
    rw [show (64 : Nat) = 63 + 1 from rfl]
    rw [diffChildrenWithKeysM_succ 63 [nA, nB, nC] [nC, nA, nB] (some 0) st4
      (⟨[MOp.insertNodeBefore 0 3 (some 1)], 10, [(0, [3, 1, 2])]⟩, [2, 0, 1], [],
       [nC, nA, nB])
      ⟨[MOp.insertNodeBefore 0 3 (some 1)], 10, [(0, [3, 1, 2])]⟩ [2, 0, 1] []
      [nC, nA, nB] hfp4 rfl rfl rfl rfl]
    have hsp4 : secondPassGo (some 0) 0 [nA, nB, nC] [2, 0, 1]
        ⟨[MOp.insertNodeBefore 0 3 (some 1)], 10, [(0, [3, 1, 2])]⟩
        = ⟨[MOp.insertNodeBefore 0 3 (some 1)], 10, [(0, [3, 1, 2])]⟩ := rfl
    rw [hsp4]
    rw [show (63 : Nat) = 62 + 1 from rfl]
    rw [thirdPassGo_nil_eq]

/-- C4 witness: the spec's rotation, old `[A(1), B(2), C(3)]` against new
`[C(3), A(1), B(2)]`, satisfies the permutation and distinct-key
hypotheses, so reconciliation moves nodes only. -/
theorem keyed_rotation_witness :
    ∃ moves dom2, diffChildrenWithKeysM 64 [nA, nB, nC] [nC, nA, nB] (some 0) st4 =
        ([nC, nA, nB], { ops := st4.ops ++ moves, fresh := st4.fresh, dom := dom2 }) ∧
      ∀ op ∈ moves, isMove op = true :=
  keyed_permutation_moves_only.1 0 64 [nA, nB, nC] [nC, nA, nB] st4
    (List.perm_append_comm : ([nC] ++ [nA, nB]).Perm ([nA, nB] ++ [nC]))
    (by decide) (by decide)

/-- C6 (amended): self-diff performs zero DOM mutations on WELL-KEYED
trees. In `src/minima.js`, a well-keyed tree (unique props keys, distinct
sibling keys, no mounted unkeyed sibling in a keyed list) diffed against
itself is returned unchanged with untouched state; in `lib/minima-core.js`,
a tree with unique props keys at every level leaves the whole runtime state
unchanged. The unrestricted claim is refuted by
`mixed_keys_self_diff_mutates`. -/
theorem self_diff_is_noop :
    (∀ (fuel : Nat) (t : MVNode) (parent : Option Nat) (st : MSt),
      wellKeyed t = true → 4 * msize t ≤ fuel →
      mdiff fuel (some t) (some t) parent st = (some t, st)) ∧
    (∀ (env : CompEnv) (fuel : Nat) (u : CVNode) (container : Option Nat) (index : Nat)
      (st : CoreState), coreWF u = true →
      (cdiff env fuel (some u) (some u) container index st).1 = st) :=
  ⟨mdiff_self, fun env fuel u container index st h =>
    (coreStep_diff_self env fuel).1 u container index st h⟩

/-- C6 witness: a mounted element with a class, a text child and no keys is
well-keyed on the `minima.js` side, and any props-unique tree (here a bare
string) qualifies on the core side; self-diff changes nothing. -/
theorem self_diff_noop_witness :
    mdiff 64 (some tW) (some tW) (some 0) stW = (some tW, stW) ∧
    (cdiff envC1 9 (some (.str "s")) (some (.str "s")) (some 0) 0 stC1).1 = stC1 :=
  ⟨self_diff_is_noop.1 64 tW (some 0) stW (by decide) (by decide),
   self_diff_is_noop.2 envC1 9 (.str "s") (some 0) 0 stC1 (by decide)⟩

set_option maxHeartbeats 1000000 in
/-- C6 counterexample: diffing a structurally identical copy against itself
is NOT always mutation-free. In a children list mixing a keyed child with a
mounted non-keyed sibling, the keyed path matches only the keyed child; the
second pass then removes the non-keyed sibling's DOM node (src/minima.js
412-417), a destructive mutation out of a self-diff. The tree violates
`wellKeyed`, the hypothesis of the amended theorem. -/
theorem mixed_keys_self_diff_mutates :
    (mdiff 64 (some tMix) (some tMix) (some 0) stMix).2.ops = [.removeNode 10 12] ∧
    wellKeyed tMix = false := by
  have hfp : firstPassGo 61 (buildKeyMap [k1, u1]) 0 [k1, u1] (some 10) stMix [] [] []
      = (stMix, [0], [POp.update u1 1], [k1, u1]) := by
    rw [show (61 : Nat) = 60 + 1 from rfl]
    rw [firstPassGo_keyed_nomove_step 60 (buildKeyMap [k1, u1]) 0 k1 [u1] 10 stMix [] [] []
      "k" k1 0 (some k1) stMix 11 1 [0] [k1] rfl rfl rfl
      (mdiff_self 60 k1 (some 10) stMix (by decide) (by decide)) (by decide) rfl rfl rfl]
    rw [firstPassGo_unkeyed_step 60 (buildKeyMap [k1, u1]) 1 u1 [] (some 10) stMix [0] []
      [k1] 2 [POp.update u1 1] [k1, u1] rfl rfl rfl rfl]
    rw [firstPassGo_nil_eq]
  have hkeys : diffChildrenWithKeysM 62 [k1, u1] [k1, u1] (some 10) stMix
      = ([k1, u1], ⟨[MOp.removeNode 10 12], 20, [(0, [10]), (10, [11])]⟩) := by
    rw [show (62 : Nat) = 61 + 1 from rfl]
    rw [diffChildrenWithKeysM_succ 61 [k1, u1] [k1, u1] (some 10) stMix
      (stMix, [0], [POp.update u1 1], [k1, u1]) stMix [0] [POp.update u1 1] [k1, u1]
      hfp rfl rfl rfl rfl]
    have hsp : secondPassGo (some 10) 0 [k1, u1] [0] stMix
        = ⟨[MOp.removeNode 10 12], 20, [(0, [10]), (10, [11])]⟩ := rfl
    rw [hsp]
    rw [show (61 : Nat) = 60 + 1 from rfl]
    rw [thirdPassGo_update_step 60 u1 1 [] [k1, u1] (some 10)
      ⟨[MOp.removeNode 10 12], 20, [(0, [10]), (10, [11])]⟩ (some u1)
      ⟨[MOp.removeNode 10 12], 20, [(0, [10]), (10, [11])]⟩
      (mdiff_self 60 u1 (some 10) ⟨[MOp.removeNode 10 12], 20, [(0, [10]), (10, [11])]⟩
        (by decide) (by decide))]
    rw [thirdPassGo_nil_eq]
  constructor
  · rw [show (64 : Nat) = 63 + 1 from rfl]
    rw [mdiff_element_self_step 63 tMix (some 0) stMix stMix [k1, u1] (some 10)
      rfl rfl rfl rfl]
    rw [show (63 : Nat) = 62 + 1 from rfl]
    rw [diffChildrenM_keys_succ 62 [k1, u1] [k1, u1] (some 10) stMix [k1, u1] [k1, u1]
      rfl rfl rfl]
    rw [hkeys]
  · decide

set_option maxHeartbeats 8000000 in
/-- C8 (amended): duplicate sibling keys do not crash reconciliation, but
key matching uses the LAST occurrence, not the first: `Map.set` overwrites,
so the key map computes `findLastKey`, and no diagnostic is emitted — the
concrete duplicate-key diff below completes with no `warn` operation,
matching the new child against the second sibling and removing the
first. -/
theorem duplicate_keys_map_to_last :
    (∀ (cs : List MVNode) (k : String), mapGet (buildKeyMap cs) k = findLastKey cs k) ∧
    diffChildrenWithKeysM 64 [a8, b8] [b8] (some 0) st8 =
      ([b8], { ops := [.insertNodeBefore 0 2 (some 1), .removeNode 0 1], fresh := 30,
               dom := [(0, [2])] }) := by
  constructor
  · intro cs k
    rw [buildKeyMap_get]
    cases findLastKey cs k with
    | none => rfl
    | some dj => cases dj with | mk d j => rfl
  · simp [diffChildrenWithKeysM, buildKeyMap, buildKeyMapGo, mapSet, mapGet, firstPassGo,
      mdiff, diffChildrenM, diffChildrenByIndexM, byIndexGo, updateElement, secondPassGo,
      thirdPassGo, a8, b8, st8, normalizeChild, createTextVNode, MVNode.key, MVNode.dom,
      MVNode.props, MVNode.children, MVNode.ty, MVNode.tag, MVNode.text, MVNode.setDom,
      domGet, domSetChildren, domInsertBefore, listInsertBefore, domRemoveChild, domDetach,
      domAppendChild, propGet, propHas, List.find?]

/-- C8 counterexample: with siblings `a8` and `b8` both keyed "k", the key
map entry for "k" holds index 1 — the second (last) occurrence, whose DOM
node is 2 — not index 0 as "the first occurrence wins" requires. -/
theorem duplicate_keys_match_last_not_first :
    (mapGet (buildKeyMap [a8, b8]) "k").map (fun e => e.2) = some 1 ∧
    (mapGet (buildKeyMap [a8, b8]) "k").map (fun e => e.1.dom) = some (some 2) ∧
    a8.key = some "k" ∧ b8.key = some "k" ∧ a8.dom = some 1 :=
  ⟨rfl, rfl, rfl, rfl, rfl⟩

/-- C9 (amended): a render scheduled while a flush is running joins the
LIVE queue of the current flush (appended unless already pending) and arms
no second flush — `renderQueue.forEach` visits elements added during
iteration, so it is processed inline by the same flush, as
`reentrant_schedule_runs_same_flush` shows, not deferred to a later one. -/
theorem scheduleRender_during_flush_is_live (c : Option Nat) (st : CoreState)
    (h : st.isRendering = true) :
    (scheduleRender c st).flushesArmed = st.flushesArmed ∧
    (scheduleRender c st).isRendering = true ∧
    (scheduleRender c st).renderQueue =
      (if st.renderQueue.contains c then st.renderQueue else st.renderQueue ++ [c]) := by
  unfold scheduleRender
  rw [h]
  exact ⟨rfl, rfl, rfl⟩

/-- C9 witness: scheduling component 5 while the flush of `stC9` runs. -/
theorem scheduleRender_during_flush_witness :
    (scheduleRender (some 5) stC9).flushesArmed = stC9.flushesArmed ∧
    (scheduleRender (some 5) stC9).isRendering = true ∧
    (scheduleRender (some 5) stC9).renderQueue =
      (if stC9.renderQueue.contains (some 5) then stC9.renderQueue
       else stC9.renderQueue ++ [some 5]) :=
  scheduleRender_during_flush_is_live (some 5) stC9 rfl

/-- C9 counterexample: in the flush of `stC9`, re-rendering component 0
mounts component 1, whose body sets its own state and thereby schedules
component 1 while the flush is running. The same flush then renders
component 1 inline (`renderStart (some 1)` is logged once), ends with an
empty queue and `isRendering` false, and no second flush is ever armed
(`flushesArmed` stays 1) — the newly scheduled render is NOT deferred to a
subsequent flush. -/
theorem reentrant_schedule_runs_same_flush :
    (flushMicrotask envC9 20 stC9).2 = none ∧
    (flushMicrotask envC9 20 stC9).1.renderQueue = [] ∧
    (flushMicrotask envC9 20 stC9).1.isRendering = false ∧
    (flushMicrotask envC9 20 stC9).1.flushesArmed = 1 ∧
    (flushMicrotask envC9 20 stC9).1.events.count (.renderStart (some 1)) = 1 :=
  ⟨rfl, rfl, rfl, rfl, rfl⟩

/-- C5: the dependency semantics of `useEffect` (lib/minima-core.js 40-59),
per visit to one effect cell: with deps omitted the effect runs on every
render (whatever the cell holds); with deps `[]` it runs on first mount and
never again; with stored and current arrays both present it re-runs exactly
when they differ in length or at some position; a stored cleanup runs
before the effect; and a run stores the new deps and the new cleanup in the
cell. -/
theorem useEffect_dependency_semantics :
    (∀ (cell : Option Hook) (effId : Nat) (hc : Bool),
      ∃ pre, (useEffectVisit cell effId none hc).2 = pre ++ [CoreEv.effectRun effId]) ∧
    (∀ (effId : Nat) (hc : Bool),
      (useEffectVisit none effId (some []) hc).2 = [CoreEv.effectRun effId]) ∧
    (∀ (effId : Nat) (hc : Bool) (cl : Option Nat),
      (useEffectVisit (some (.heffect (some []) cl)) effId (some []) hc).2 = []) ∧
    (∀ (pd cd : List Val), depsChanged (some pd) (some cd) = true ↔ cd ≠ pd) ∧
    (∀ (d : Option (List Val)) (cl effId : Nat) (deps : Option (List Val)) (hc : Bool),
      depsChanged d deps = true →
      (useEffectVisit (some (.heffect d (some cl))) effId deps hc).2
        = [CoreEv.cleanupRun cl, CoreEv.effectRun effId]) ∧
    (∀ (d : Option (List Val)) (cl : Option Nat) (effId : Nat) (deps : Option (List Val))
      (hc : Bool), depsChanged d deps = true →
      (useEffectVisit (some (.heffect d cl)) effId deps hc).1
        = .heffect deps (if hc then some effId else none)) := by
  refine ⟨?_, fun _ _ => rfl, fun _ _ _ => rfl, fun pd cd => depsChanged_some_iff pd cd,
    ?_, ?_⟩
  · intro cell effId hc
    cases cell with
    | none => exact ⟨[], rfl⟩
    | some hk =>
      cases hk with
      | hstate v => exact ⟨[], rfl⟩
      | heffect d cl =>
        cases d with
        | none =>
          cases cl with
          | none => exact ⟨[], rfl⟩
          | some c => exact ⟨[CoreEv.cleanupRun c], rfl⟩
        | some pd =>
          cases cl with
          | none => exact ⟨[], rfl⟩
          | some c => exact ⟨[CoreEv.cleanupRun c], rfl⟩
  · intro d cl effId deps hc h
    unfold useEffectVisit
    simp only []
    rw [if_pos h]
    rfl
  · intro d cl effId deps hc h
    unfold useEffectVisit
    simp only []
    rw [if_pos h]

/-- C5 witness: stored deps `[1]`, new deps `[2]`: changed, so the stored
cleanup (id 9) runs before the effect (id 5). -/
theorem useEffect_deps_witness :
    depsChanged (some [1]) (some [2]) = true ∧
    (useEffectVisit (some (.heffect (some [1]) (some 9))) 5 (some [2]) false).2
      = [CoreEv.cleanupRun 9, CoreEv.effectRun 5] :=
  ⟨by decide,
   useEffect_dependency_semantics.2.2.2.2.1 (some [1]) 9 5 (some [2]) false (by decide)⟩

/-- C10: hook storage is keyed by the component function itself
(lib/minima-core.js 6-8, 140-171): rendering a VNode whose type is an
already-mounted component function reads the record stored under that
function. It returns the SAME cached element, creates no record (the key
set of `components` is unchanged), writes only hook cells (every record
keeps its `element` and `oldVNode`), and appends only effect/cleanup
events — in particular, simultaneous mounts at different tree positions all
share one instance record. -/
theorem component_record_shared_by_function (env : CompEnv) (fuel : Nat) (f : Nat)
    (props : List (String × PropVal)) (st : CoreState) (cd : CompData)
    (hcd : lookupComp st f = some cd) (hel : cd.element.isSome = true)
    (hrun : (runBody env (env f).body
      { st with currentComponent := some f, hookIndex := 0 }).2 = none) :
    ∃ st2 evs,
      renderFunction env (fuel + 1) f props st = (cd.element, st2, none) ∧
      st2.components.map Prod.fst = st.components.map Prod.fst ∧
      st2.events = st.events ++ evs ∧ (∀ e ∈ evs, CoreEv.isHook e = true) ∧
      ∃ cd2, lookupComp st2 f = some cd2 ∧ cd2.element = cd.element ∧
        cd2.oldVNode = cd.oldVNode := by
  have hcd1 : lookupComp { st with currentComponent := some f, hookIndex := 0 } f
      = some cd := hcd
  obtain ⟨evs, hevs, hhk⟩ :=
    runBody_events env (env f).body { st with currentComponent := some f, hookIndex := 0 }
  obtain ⟨cd2, hlk2, helEq, hoEq⟩ :=
    runBody_records env (env f).body { st with currentComponent := some f, hookIndex := 0 }
      f cd hcd1
  unfold renderFunction
  rw [coreStep_render]
  simp only []
  rw [hcd1]
  simp only []
  rw [hrun]
  simp only []
  rw [hlk2]
  simp only []
  rw [if_pos (show cd2.element.isSome = true by rw [helEq]; exact hel)]
  refine ⟨{ (runBody env (env f).body
      { st with currentComponent := some f, hookIndex := 0 }).1 with
      currentComponent := st.currentComponent, hookIndex := st.hookIndex }, evs,
    ?_, ?_, ?_, hhk, cd2, ?_, helEq, hoEq⟩
  · rw [helEq]
  · exact runBody_keys env (env f).body _
  · exact hevs
  · exact hlk2


/-- C7 (amended): `renderComponent` (lib/minima-core.js 174-191) has no
try/catch, so a component body that throws propagates the error to the
caller — and out of the scheduler flush, as `component_throw_reaches_flush`
shows. What DOES hold of the claim: the previously rendered output is left
unchanged — the document, and the `element` and stored tree of every
record, are intact; only the render start and effect/cleanup events were
appended. And the `defineComponent` wrapper of src/minima.js 625-631
catches: a throwing body yields the bracketed error text VNode in place of
a rethrow. -/
theorem component_throw_propagates_core_caught_by_wrapper (env : CompEnv) (fuel : Nat)
    (cid : Nat) (st : CoreState) (cd : CompData) (st1 : CoreState) (msg : String)
    (hcd : lookupComp st cid = some cd)
    (hel : cd.element.isNone = false)
    (hrun : runBody env (env cid).body
      { { st with events := st.events ++ [CoreEv.renderStart (some cid)] } with
        currentComponent := some cid, hookIndex := 0 } = (st1, some msg)) :
    renderComponent env fuel (some cid) st = (st1, some msg) ∧
    st1.dom = st.dom ∧
    (∃ evs, st1.events = st.events ++ [CoreEv.renderStart (some cid)] ++ evs ∧
      ∀ e ∈ evs, CoreEv.isHook e = true) ∧
    (∀ cid2 cd0, lookupComp st cid2 = some cd0 →
      ∃ cd3, lookupComp st1 cid2 = some cd3 ∧ cd3.element = cd0.element ∧
        cd3.oldVNode = cd0.oldVNode) ∧
    (∀ (name m : String) (parse : String → MJS.MVNode),
      MJS.componentWrapper name (.error m) parse
        = .ok (MJS.createTextVNode ("[Component Error: " ++ name ++ "]"))) := by
  have hcdA : lookupComp { st with events := st.events ++ [CoreEv.renderStart (some cid)] } cid
      = some cd := hcd
  have h1 : (runBody env (env cid).body
      { { st with events := st.events ++ [CoreEv.renderStart (some cid)] } with
        currentComponent := some cid, hookIndex := 0 }).1 = st1 := by rw [hrun]
  obtain ⟨evs, hevs, hhk⟩ := runBody_events env (env cid).body
    { { st with events := st.events ++ [CoreEv.renderStart (some cid)] } with
      currentComponent := some cid, hookIndex := 0 }
  refine ⟨?_, ?_, ?_, ?_, fun name m parse => rfl⟩
  · unfold renderComponent
    simp only []
    rw [hcdA]
    simp only []
    rw [if_neg (by simp [hel])]
    rw [hrun]
  · rw [← h1]
    exact runBody_dom env _ _
  · refine ⟨evs, ?_, hhk⟩
    rw [← h1]
    exact hevs
  · intro cid2 cd0 h
    obtain ⟨cd3, hl, he, ho⟩ := runBody_records env (env cid).body
      { { st with events := st.events ++ [CoreEv.renderStart (some cid)] } with
        currentComponent := some cid, hookIndex := 0 } cid2 cd0 h
    refine ⟨cd3, ?_, he, ho⟩
    rw [← h1]
    exact hl

/-- C7 witness: component 0 of `envC7` throws "boom" out of its re-render;
the document is untouched and the wrapper catches. -/
theorem component_throw_witness :
    renderComponent envC7 10 (some 0) stC7 = (stT7, some "boom") ∧
    stT7.dom = stC7.dom ∧
    (∃ evs, stT7.events = stC7.events ++ [CoreEv.renderStart (some 0)] ++ evs ∧
      ∀ e ∈ evs, CoreEv.isHook e = true) ∧
    (∀ cid2 cd0, lookupComp stC7 cid2 = some cd0 →
      ∃ cd3, lookupComp stT7 cid2 = some cd3 ∧ cd3.element = cd0.element ∧
        cd3.oldVNode = cd0.oldVNode) ∧
    (∀ (name m : String) (parse : String → MJS.MVNode),
      MJS.componentWrapper name (.error m) parse
        = .ok (MJS.createTextVNode ("[Component Error: " ++ name ++ "]"))) :=
  component_throw_propagates_core_caught_by_wrapper envC7 10 0 stC7
    ⟨some 1, some (.str "a"), [], []⟩ stT7 "boom" rfl rfl rfl

/-- C7 counterexample: the error is NOT caught at the instance boundary:
`renderComponent` returns it to its caller, and the flush rethrows it — the
microtask errors, the queue stays uncleared and `isRendering` stays stuck;
the module context `currentComponent` is left clobbered as well. -/
theorem component_throw_reaches_flush :
    (renderComponent envC7 10 (some 0) stC7).2 = some "boom" ∧
    (flushMicrotask envC7 10 stQ7).2 = some "boom" ∧
    (flushMicrotask envC7 10 stQ7).1.isRendering = true ∧
    (flushMicrotask envC7 10 stQ7).1.renderQueue = [some 0] ∧
    (renderComponent envC7 10 (some 0) stC7).1.currentComponent = some 0 :=
  ⟨rfl, rfl, rfl, rfl, rfl⟩

/-- C2 (amended): effects do NOT wait for the DOM mutations of the render
pass — `useEffect` (lib/minima-core.js 54-58) invokes the effect
synchronously inside the component body. For a re-render of a component
whose views contain no component nodes, the events `renderComponent`
appends are: the render start, then the effect/cleanup runs of the body
(E), then the DOM mutations of the diff (D) — every hook event of the pass
strictly precedes every DOM mutation of the pass, the reverse of the
claimed order. -/
theorem effects_run_during_render_before_dom (env : CompEnv) (fuel : Nat) (cid : Nat)
    (st : CoreState) (hview : ∀ hooks, noComp ((env cid).view hooks) = true) :
    ∃ E D, (renderComponent env fuel (some cid) st).1.events =
      st.events ++ [CoreEv.renderStart (some cid)] ++ E ++ D ∧
      (∀ e ∈ E, CoreEv.isHook e = true) ∧ (∀ e ∈ D, CoreEv.isDom e = true) := by
  unfold renderComponent
  simp only []
  cases hlk : lookupComp { st with events := st.events ++ [CoreEv.renderStart (some cid)] } cid with
  | none => exact ⟨[], [], by simp, by simp, by simp⟩
  | some cd =>
    simp only []
    by_cases hnil : cd.element.isNone = true
    · rw [if_pos hnil]
      exact ⟨[], [], by simp, by simp, by simp⟩
    · rw [if_neg hnil]
      obtain ⟨E, hE, hEh⟩ := runBody_events env (env cid).body
        { { st with events := st.events ++ [CoreEv.renderStart (some cid)] } with
          currentComponent := some cid, hookIndex := 0 }
      cases hr : (runBody env (env cid).body
          { { st with events := st.events ++ [CoreEv.renderStart (some cid)] } with
            currentComponent := some cid, hookIndex := 0 }).2 with
      | some e =>
        refine ⟨E, [], ?_, hEh, by simp⟩
        simp only []
        rw [hE]
        simp
      | none =>
        cases hlk2 : lookupComp (runBody env (env cid).body
            { { st with events := st.events ++ [CoreEv.renderStart (some cid)] } with
              currentComponent := some cid, hookIndex := 0 }).1 cid with
        | none =>
          refine ⟨E, [], ?_, hEh, by simp⟩
          simp only []
          rw [hE]
          simp
        | some cd2 =>
          simp only []
          cases hel2 : cd2.element with
          | none =>
            refine ⟨E, [], ?_, hEh, by simp⟩
            simp only []
            rw [hE]
            simp
          | some el =>
            simp only []
            cases hfp : findParent (runBody env (env cid).body
                { { st with events := st.events ++ [CoreEv.renderStart (some cid)] } with
                  currentComponent := some cid, hookIndex := 0 }).1.dom el with
            | none =>
              refine ⟨E, [], ?_, hEh, by simp⟩
              simp only []
              rw [hE]
              simp
            | some pi =>
              simp only [cdiff]
              obtain ⟨D, hD, hDd⟩ := coreStep_domOnly env fuel
                (.diffJob cd2.oldVNode (some ((env cid).view cd2.hooks)) (some pi.1) pi.2)
                (runBody env (env cid).body
                  { { st with events := st.events ++ [CoreEv.renderStart (some cid)] } with
                    currentComponent := some cid, hookIndex := 0 }).1
                (show jobOK (.diffJob cd2.oldVNode (some ((env cid).view cd2.hooks))
                  (some pi.1) pi.2) = true from hview cd2.hooks)
              cases hre : (coreStep env fuel
                  (.diffJob cd2.oldVNode (some ((env cid).view cd2.hooks)) (some pi.1) pi.2)
                  (runBody env (env cid).body
                    { { st with events := st.events ++ [CoreEv.renderStart (some cid)] } with
                      currentComponent := some cid, hookIndex := 0 }).1).2.2 with
              | some e2 =>
                refine ⟨E, D, ?_, hEh, hDd⟩
                simp only []
                rw [hD, hE]
              | none =>
                simp only []
                cases hlk3 : lookupComp (coreStep env fuel
                    (.diffJob cd2.oldVNode (some ((env cid).view cd2.hooks)) (some pi.1) pi.2)
                    (runBody env (env cid).body
                      { { st with events := st.events ++ [CoreEv.renderStart (some cid)] } with
                        currentComponent := some cid, hookIndex := 0 }).1).2.1 cid with
                | none =>
                  refine ⟨E, D, ?_, hEh, hDd⟩
                  simp only []
                  rw [hD, hE]
                | some cd3 =>
                  refine ⟨E, D, ?_, hEh, hDd⟩
                  simp only []
                  rw [(setComp_fields _ _ _).1]
                  rw [hD, hE]

/-- C2 witness: the split applied to the re-render of `stC2` (every view of
`envC2` is plain text). -/
theorem effects_split_witness :
    ∃ E D, (renderComponent envC2 10 (some 0) stC2).1.events =
      stC2.events ++ [CoreEv.renderStart (some 0)] ++ E ++ D ∧
      (∀ e ∈ E, CoreEv.isHook e = true) ∧ (∀ e ∈ D, CoreEv.isDom e = true) :=
  effects_run_during_render_before_dom envC2 10 0 stC2 (fun _ => rfl)

/-- C2 counterexample: in the re-render of `stC2` the effect (id 7) runs
synchronously during the body, BEFORE the DOM write of the same pass: the
log is the render start, then `effectRun 7`, then the text write. The
effect is invoked during render, not queued until after the DOM
mutations. -/
theorem effect_runs_before_dom_write :
    (renderComponent envC2 10 (some 0) stC2).2 = none ∧
    (renderComponent envC2 10 (some 0) stC2).1.events
      = [.renderStart (some 0), .effectRun 7, .domSetText 0 0 "b"] ∧
    (renderComponent envC2 10 (some 0) stC2).1.events[1]? = some (.effectRun 7) ∧
    (renderComponent envC2 10 (some 0) stC2).1.events[2]? = some (.domSetText 0 0 "b") :=
  ⟨rfl, rfl, rfl, rfl⟩

/-- C10 witness: mount component 0 of `envC10` (it gets element 20), then
render a second VNode of the same function: the one record is shared — the
same cached element comes back, no record is added, and the hook cell is
the one the first render allocated. -/
theorem component_record_shared_witness :
    ∃ st2 evs,
      renderFunction envC10 11 0 [] (renderFunction envC10 10 0 [] stC10).2.1
        = (some 20, st2, none) ∧
      st2.components.map Prod.fst
        = (renderFunction envC10 10 0 [] stC10).2.1.components.map Prod.fst ∧
      st2.events = (renderFunction envC10 10 0 [] stC10).2.1.events ++ evs ∧
      (∀ e ∈ evs, CoreEv.isHook e = true) ∧
      ∃ cd2, lookupComp st2 0 = some cd2 ∧ cd2.element = some 20 ∧
        cd2.oldVNode = some (.str "x") :=
  component_record_shared_by_function envC10 10 0 []
    (renderFunction envC10 10 0 [] stC10).2.1
    ⟨some 20, some (.str "x"), [], [.hstate 4]⟩ rfl rfl rfl

end MinimaJS
